import Mathlib

/-!
# Event ingestion / append-only ledger / sequential projection pipeline

Shallow embedding of the chain-listener / event-ledger / projector /
rebuild-tool core of the NFT rental marketplace backend:

* `backend/src/services/chainListener.ts` — listener (checkpoint handling,
  backfill retry loop, idempotent ledger insert),
* `backend/src/services/projector.ts` — sequential projector and its four
  event handlers,
* `backend/src/models/Event.ts`, `Listing.ts`, `NFT.ts` — the ledger schema
  with its unique `(txHash, logIndex)` index, the listing schema with its
  partial unique index on `(tokenAddress, tokenId, status)` scoped to
  `status = 'ACTIVE'`, and the NFT schema with its unique
  `(tokenAddress, tokenId)` index,
* the rebuild script (resets the checkpoint, re-marks every ledger entry
  pending, deletes ledger-derived read-model rows).

Modelling conventions:

* Mongo collections are lists of records; the Mongo `_id` of a listing is an
  explicit `docId : Nat` drawn from an allocator `nextId` (rentals reference
  it through their `listingId` field, mirroring `listing._id.toString()`).
* `updateOne` / `findOneAndUpdate` update the first matching document;
  `upsert : true` inserts when nothing matches.  A write that would violate
  the partial unique index on active listings fails (Mongo `E11000`), which
  the embedding represents by returning `none`; the projector's
  `try/catch` turns that into the retry path.
* Wall-clock timestamps (`new Date()`) are an explicit `now : Nat` argument
  threaded into every operation that stores one.
* JavaScript falsiness guards on the decoded string fields (`!seller` etc.)
  are empty-string tests, since the listener always stores strings in the
  argument bags.
* Numeric argument-bag fields that the listener stores with `.toString()`
  and the projector immediately reads back with `Number(...)` are modelled
  as `Nat` end to end.
-/

namespace NftPipeline

/-- Processing status of a ledger entry (`Event.ts` status enum). -/
inductive EvStatus
  | pending
  | processed
  | failed
deriving DecidableEq, Repr

/-- Listing status (`Listing.ts` status enum). -/
inductive LStatus
  | localDraft
  | pendingCreate
  | active
  | pendingCancel
  | cancelled
  | rented
  | legacyArchived
deriving DecidableEq, Repr

/-- Derived asset record (`NFT.ts`), restricted to the fields the core
pipeline reads or writes. -/
structure NFTRecord where
  tokenAddress : String
  tokenId : String
  creator : String
  owner : String
  metadataHash : String
  mintTxHash : String
  blockNumber : Nat
  renter : Option String
  expiresAt : Option Nat
  updatedAt : Nat
deriving DecidableEq, Repr

/-- Derived listing record (`Listing.ts`), restricted to the fields the core
pipeline reads or writes plus the fields carrying unique indexes.  `docId`
stands for the Mongo `_id`; `id` is the app-internal string id the schema
declares with a non-sparse unique index (`id: { type: String, unique:
true }`) — the API layer sets it on the rows it creates, while the
projector's upserts never write it, so a projector-inserted row stores no
`id` and the unique index admits at most one such (`null`-keyed) row. -/
structure ListingRecord where
  docId : Nat
  id : Option String
  onChainListingId : Option Nat
  sellerAddress : String
  tokenAddress : String
  tokenId : String
  pricePerDay : String
  minDuration : Nat
  maxDuration : Nat
  metadataHash : String
  status : LStatus
  txHash : Option String
  blockNumber : Option Nat
  confirmedAt : Option Nat
deriving DecidableEq, Repr

/-- Derived rental record as written by `Projector.handleRented`
(keyed by the granting transaction hash). -/
structure RentalRecord where
  txHash : String
  onChainListingId : Nat
  listingId : Nat
  tokenAddress : String
  tokenId : String
  renter : String
  owner : String
  totalPrice : String
  expiresAt : Nat
  status : String
  startBlock : Nat
  updatedAt : Nat
deriving DecidableEq, Repr

/-- The four decoded argument bags produced by `ChainListener.processBatch`.
The listener always pairs `eventName` with the matching bag shape, so the
projector's `switch (eventName)` dispatch is modelled as a match on this
closed set. -/
inductive EventArgs
  | minted (tokenId creator tokenURI metadataHash : String)
  | listingCreated (onChainListingId : Nat)
      (seller tokenAddress tokenId pricePerDay : String)
      (minDuration maxDuration : Nat) (metadataHash : String)
  | rented (onChainListingId : Nat) (renter tokenAddress tokenId : String)
      (expires : Nat) (totalPrice : String)
  | listingCancelled (onChainListingId : Nat) (tokenAddress tokenId : String)
deriving DecidableEq, Repr

/-- One row of the event ledger (`Event.ts`).  The natural key is
`(txHash, logIndex)` (unique index). -/
structure LedgerEntry where
  txHash : String
  logIndex : Nat
  blockNumber : Nat
  contractAddress : String
  args : EventArgs
  status : EvStatus
  retries : Nat
  updatedAt : Nat
deriving DecidableEq, Repr

/-- The derived read models plus the `_id` allocator for listings. -/
structure DB where
  nfts : List NFTRecord
  listings : List ListingRecord
  rentals : List RentalRecord
  nextId : Nat
deriving DecidableEq, Repr

/-- ASCII lowercasing of an address string (`String.prototype.toLowerCase`
on the hex addresses this pipeline handles), written directly on the
character list so that it evaluates by structural recursion. -/
def lowerStr (s : String) : String :=
  ⟨s.data.map Char.toLower⟩

/-! ## List helpers: first-match update, mirroring Mongo `updateOne` -/

/-- Split a list around the first element satisfying `p`. -/
def splitFirst (p : α → Bool) : List α → Option (List α × α × List α)
  | [] => none
  | x :: xs =>
    if p x then some ([], x, xs)
    else
      match splitFirst p xs with
      | none => none
      | some (pre, y, post) => some (x :: pre, y, post)

/-- Update the first element satisfying `p` (no-op when none matches):
Mongo `updateOne` without upsert. -/
def updateFirstBy (p : α → Bool) (u : α → α) (l : List α) : List α :=
  match splitFirst p l with
  | none => l
  | some (pre, x, post) => pre ++ u x :: post

/-! ## Projector handlers (`projector.ts`) -/

/-- `Projector.handleNFTMinted` / `safeUpdateNFT`: upsert the asset record by
its authoritative identity `(tokenAddress, tokenId)`.  The `E11000` fallback
inside `safeUpdateNFT` re-issues the same update keyed by the same
authoritative identity, so it is observationally the plain upsert modelled
here.  The draft-enrichment write targets the separate `Draft` collection,
which is not a derived read model of this core. -/
def handleNFTMinted (db : DB) (tokenId creator metadataHash : String)
    (txHash : String) (blockNumber : Nat) (contractAddress : String)
    (now : Nat) : Option DB :=
  if creator = "" ∨ contractAddress = "" then some db
  else
    match splitFirst (fun nf => decide (nf.tokenAddress = lowerStr contractAddress ∧
        nf.tokenId = tokenId)) db.nfts with
    | some (pre, x, post) =>
      some { db with nfts :=
        pre ++ { x with tokenAddress := lowerStr contractAddress,
                        tokenId := tokenId, creator := lowerStr creator,
                        owner := lowerStr creator,
                        metadataHash := metadataHash, mintTxHash := txHash,
                        blockNumber := blockNumber, updatedAt := now } :: post }
    | none =>
      some { db with nfts :=
        db.nfts ++ [{ tokenAddress := lowerStr contractAddress,
                      tokenId := tokenId, creator := lowerStr creator,
                      owner := lowerStr creator,
                      metadataHash := metadataHash, mintTxHash := txHash,
                      blockNumber := blockNumber, renter := none,
                      expiresAt := none, updatedAt := now }] }

/-- Does `l` collide with an active listing for asset `(rta, rti)` under the
partial unique index of `Listing.ts`? -/
def activeConflict (rta rti : String) (l : ListingRecord) : Bool :=
  decide (l.status = LStatus.active ∧ l.tokenAddress = rta ∧ l.tokenId = rti)

/-- Does `l` occupy the `null` key of the non-sparse unique index on `id`?
A projector insert stores no `id`, so it collides with any such row. -/
def idMissing (l : ListingRecord) : Bool :=
  decide (l.id = none)

/-- `Projector.handleListingCreated`: ownership-snapshot check, then upsert
keyed by the ledger-assigned listing id with status `ACTIVE`.  Result `none`
models the duplicate-key exception raised by the partial unique index on
`(tokenAddress, tokenId, status='ACTIVE')` when a different document is
already active for the same asset, and — on the insert path only, since the
update path leaves the `id` field untouched — the duplicate-key exception
raised by the non-sparse unique index on `id` when some listing row without
an `id` already exists (the inserted document stores no `id` either, so
both map to the index key `null`). -/
def handleListingCreated (db : DB) (n : Nat)
    (seller ta ti price : String) (minD maxD : Nat) (mh : String)
    (txHash : String) (blockNumber : Nat) (now : Nat) : Option DB :=
  if ta = "" ∨ seller = "" ∨ ti = "" then some db
  else
    match db.nfts.find? (fun nf => decide (nf.tokenAddress = lowerStr ta ∧
        nf.tokenId = ti)) with
    | none => some db
    | some nft =>
      if nft.owner ≠ lowerStr seller then some db
      else
        match splitFirst (fun l => decide (l.onChainListingId = some n)) db.listings with
        | some (pre, x, post) =>
          if (pre ++ post).any (activeConflict (lowerStr ta) ti) then none
          else
            some { db with listings :=
              pre ++ { x with sellerAddress := lowerStr seller,
                              tokenAddress := lowerStr ta, tokenId := ti,
                              pricePerDay := price, minDuration := minD, maxDuration := maxD,
                              metadataHash := mh, status := LStatus.active,
                              txHash := some txHash, blockNumber := some blockNumber,
                              confirmedAt := some now } :: post }
        | none =>
          if db.listings.any (activeConflict (lowerStr ta) ti) ||
              db.listings.any idMissing then none
          else
            some { db with
              listings := db.listings ++
                [{ docId := db.nextId, id := none, onChainListingId := some n,
                   sellerAddress := lowerStr seller,
                   tokenAddress := lowerStr ta, tokenId := ti, pricePerDay := price,
                   minDuration := minD, maxDuration := maxD, metadataHash := mh,
                   status := LStatus.active, txHash := some txHash,
                   blockNumber := some blockNumber, confirmedAt := some now }],
              nextId := db.nextId + 1 }

/-- The `$set` document of the rental upsert inside `handleRented`, built
from the referenced listing (whose identity fields the `RENTED` status flip
does not touch). -/
def rentedRow (n : Nat) (renter : String) (expires : Nat)
    (total txHash : String) (blockNumber now : Nat) (x : ListingRecord) :
    RentalRecord :=
  { txHash := txHash, onChainListingId := n, listingId := x.docId,
    tokenAddress := lowerStr x.tokenAddress, tokenId := x.tokenId,
    renter := lowerStr renter, owner := lowerStr x.sellerAddress,
    totalPrice := total, expiresAt := expires * 1000, status := "ACTIVE",
    startBlock := blockNumber, updatedAt := now }

/-- `Projector.handleRented`: flip the referenced listing to `RENTED`
(returning the updated document, `new : true`); when no listing matches,
return with no effect at all.  Otherwise upsert the rental keyed by the
granting transaction hash and update the asset's holder/expiry fields. -/
def handleRented (db : DB) (n : Nat) (renter : String) (expires : Nat)
    (total : String) (txHash : String) (blockNumber : Nat) (now : Nat) :
    Option DB :=
  match splitFirst (fun l => decide (l.onChainListingId = some n)) db.listings with
  | none => some db
  | some (pre, x, post) =>
    some { db with
      listings := pre ++ { x with status := LStatus.rented } :: post,
      rentals :=
        (match splitFirst (fun r => decide (r.txHash = txHash)) db.rentals with
         | some (rpre, _, rpost) => rpre ++ rentedRow n renter expires total
              txHash blockNumber now x :: rpost
         | none => db.rentals ++ [rentedRow n renter expires total txHash
              blockNumber now x]),
      nfts := updateFirstBy
        (fun nf => decide (nf.tokenAddress = lowerStr x.tokenAddress ∧
                           nf.tokenId = x.tokenId))
        (fun nf => { nf with renter := some (lowerStr renter),
                             expiresAt := some (expires * 1000),
                             updatedAt := now })
        db.nfts }

/-- `Projector.handleListingCancelled`: flip the referenced listing to
`CANCELLED` (no-op when no listing matches). -/
def handleListingCancelled (db : DB) (n : Nat) : Option DB :=
  let listings' := updateFirstBy (fun l => decide (l.onChainListingId = some n))
    (fun l => { l with status := LStatus.cancelled }) db.listings
  some { db with listings := listings' }

/-- `Projector.applyEvent`: kind dispatch.  `none` models a handler throw. -/
def applyEvent (db : DB) (e : LedgerEntry) (now : Nat) : Option DB :=
  match e.args with
  | .minted tokenId creator _tokenURI metadataHash =>
    handleNFTMinted db tokenId creator metadataHash e.txHash e.blockNumber
      e.contractAddress now
  | .listingCreated n seller ta ti price minD maxD mh =>
    handleListingCreated db n seller ta ti price minD maxD mh e.txHash
      e.blockNumber now
  | .rented n renter _ta _ti expires total =>
    handleRented db n renter expires total e.txHash e.blockNumber now
  | .listingCancelled n _ta _ti =>
    handleListingCancelled db n

/-- Strict ledger order `(blockNumber, logIndex)` used by
`findOne({status:'pending'}).sort({blockNumber:1, logIndex:1})`. -/
def entryKeyLt (a b : LedgerEntry) : Bool :=
  decide (a.blockNumber < b.blockNumber ∨
          (a.blockNumber = b.blockNumber ∧ a.logIndex < b.logIndex))

/-- One fold step of the pending-entry selection: keep the least pending
entry seen so far (first one wins on ties, as in a stable sort). -/
def selStep (acc : Option LedgerEntry) (e : LedgerEntry) : Option LedgerEntry :=
  if e.status = EvStatus.pending then
    match acc with
    | none => some e
    | some b => if entryKeyLt e b then some e else acc
  else acc

/-- The single lowest-ordered pending entry, or none. -/
def selectPending (evs : List LedgerEntry) : Option LedgerEntry :=
  evs.foldl selStep none

/-- `event.save()`: persist a status/retry transition of the entry with the
given natural key (which the ledger's unique index keeps unique). -/
def markEntry (evs : List LedgerEntry) (tx : String) (li : Nat)
    (u : LedgerEntry → LedgerEntry) : List LedgerEntry :=
  evs.map fun e => if e.txHash = tx ∧ e.logIndex = li then u e else e

/-- `Projector.processNextPending`: fetch the oldest pending entry, apply its
handler, and transition its status.  `crash` injects an environment-induced
handler exception (storage failure); a `none` result of `applyEvent` (the
duplicate-key throw) takes the same catch path.  On success the entry becomes
`processed`; on a throw the retry counter is incremented and the entry stays
`pending` until the counter reaches 5, at which point it is marked
`failed`. -/
def processNextPending (db : DB) (evs : List LedgerEntry) (now : Nat)
    (crash : Bool) : DB × List LedgerEntry :=
  match selectPending evs with
  | none => (db, evs)
  | some e =>
    match (if crash then none else applyEvent db e now) with
    | some db' =>
      (db', markEntry evs e.txHash e.logIndex
        (fun x => { x with status := EvStatus.processed, updatedAt := now }))
    | none =>
      (db, markEntry evs e.txHash e.logIndex
        (fun x =>
          { x with retries := x.retries + 1,
                   status := if x.retries + 1 ≥ 5 then EvStatus.failed else x.status,
                   updatedAt := now }))

/-- Crash-free projector loop, iterated `fuel` times; `clock i` is the wall
clock observed at step `i`. -/
def runProjector (db : DB) (evs : List LedgerEntry) (clock : Nat → Nat) :
    Nat → Nat → DB × List LedgerEntry
  | _, 0 => (db, evs)
  | step, fuel + 1 =>
    let s := processNextPending db evs (clock step) false
    runProjector s.1 s.2 clock (step + 1) fuel

/-! ## Listener (`chainListener.ts`) -/

/-- A decoded log handed to `ChainListener.enqueueEvent`. -/
structure QueuedEvent where
  blockNumber : Nat
  logIndex : Nat
  txHash : String
  contractAddress : String
  args : EventArgs
deriving DecidableEq, Repr

/-- The `$setOnInsert` document of `ChainListener.enqueueEvent`: the fresh
pending ledger row built from a decoded log. -/
def insertedRow (ev : QueuedEvent) : LedgerEntry :=
  { txHash := ev.txHash, logIndex := ev.logIndex,
    blockNumber := ev.blockNumber,
    contractAddress := lowerStr ev.contractAddress,
    args := ev.args, status := EvStatus.pending, retries := 0,
    updatedAt := 0 }

/-- `ChainListener.enqueueEvent`: idempotent `updateOne … $setOnInsert …
upsert` keyed by the natural key `(txHash, logIndex)`.  When a row with the
key exists, nothing is written (`$setOnInsert` applies only on insert);
otherwise a fresh pending row is inserted.  Both outcomes return the ledger
(success); a duplicate-key race is also swallowed as success by the
`err.code !== 11000` catch. -/
def enqueueEvent (ledger : List LedgerEntry) (ev : QueuedEvent) :
    List LedgerEntry :=
  if ledger.any (fun e => decide (e.txHash = ev.txHash ∧ e.logIndex = ev.logIndex)) then
    ledger
  else
    ledger ++ [insertedRow ev]

/-- Modelled from the spec: the Checkpoint row (the `SyncState` schema file is
not among the provided sources; only its callers are).  Per §3 of the spec it
holds the listener identity — fixed to `'market_listener'` everywhere, so
left implicit — the last confirmed block height, and an update timestamp. -/
structure SyncRow where
  lastProcessedBlock : Nat
  updatedAt : Nat
deriving DecidableEq, Repr

/-- Listener state: the in-memory `this.lastProcessedBlock` cursor, the
persisted checkpoint row, and the chronological log of values persisted by
`saveState` (for stating monotonicity of the persisted checkpoint). -/
structure ListenerState where
  mem : Nat
  store : Option SyncRow
  writes : List Nat
deriving DecidableEq, Repr

/-- `ChainListener.saveState`: persist `blockNumber` only when it is above
the in-memory cursor. -/
def saveState (st : ListenerState) (blockNumber now : Nat) : ListenerState :=
  if blockNumber > st.mem then
    { mem := blockNumber, store := some ⟨blockNumber, now⟩,
      writes := st.writes ++ [blockNumber] }
  else st

/-- `ChainListener.loadState`: resume from the persisted checkpoint minus the
reorg guard (`Math.max(0, …)` is truncated subtraction on `Nat`); when no
checkpoint exists, initialize to the current height minus a 100-block safety
window and persist immediately (`SyncStateModel.create`). -/
def loadState (store : Option SyncRow) (reorgGuard currentBlock now : Nat) :
    ListenerState :=
  match store with
  | some s =>
    { mem := s.lastProcessedBlock - reorgGuard, store := some s, writes := [] }
  | none =>
    { mem := currentBlock - 100,
      store := some ⟨currentBlock - 100, now⟩,
      writes := [currentBlock - 100] }

/-- The per-range retry loop of `backfillEvents`: attempts run with
`retries = 0, 1, …, maxRetries` (i.e. `maxRetries + 1` attempts in total,
since the `while (retries <= MAX_RETRIES)` loop breaks once the
post-increment counter exceeds the bound); the range succeeds iff some
attempt succeeds.  `ok k` is the outcome of the attempt with counter `k`
(`processBatch` transport/decode success). -/
def tryRange (ok : Nat → Bool) (maxRetries : Nat) : Bool :=
  (List.range (maxRetries + 1)).any ok

/-- The range loop of `ChainListener.backfillEvents`, fuel-indexed: scan
fixed-size ranges from `lo` up to `latest`; on range success persist the
range end and continue; when every attempt for a range fails, stop without
advancing (the checkpoint and all later ranges are untouched). -/
def backfillAux (ok : Nat → Nat → Bool) (batch maxRetries latest now : Nat) :
    Nat → ListenerState → Nat → ListenerState
  | 0, st, _ => st
  | fuel + 1, st, lo =>
    if lo ≤ latest then
      if tryRange (ok lo) maxRetries then
        backfillAux ok batch maxRetries latest now fuel
          (saveState st (min (lo + batch - 1) latest) now) (lo + batch)
      else st
    else st

/-- `ChainListener.backfillEvents`: scan from the in-memory cursor to the
current height.  `latest + 1 - st.mem` iterations over-approximate the
number of ranges whenever `batch ≥ 1`. -/
def backfillEvents (ok : Nat → Nat → Bool) (batch maxRetries latest now : Nat)
    (st : ListenerState) : ListenerState :=
  backfillAux ok batch maxRetries latest now (latest + 1 - st.mem) st st.mem

/-- An arbitrary sequence of `saveState` calls (backfill and the real-time
polling loop both persist the checkpoint exclusively through `saveState`).
Each element of `bs` is a `(blockNumber, now)` pair. -/
def savesRun (st : ListenerState) (bs : List (Nat × Nat)) : ListenerState :=
  bs.foldl (fun s b => saveState s b.1 b.2) st

/-! ## Rebuild tool -/

/-- Is a listing in a confirmed (ledger-derived) status?  These are exactly
the statuses deleted by the rebuild tool. -/
def confirmedStatus (s : LStatus) : Bool :=
  decide (s = LStatus.active ∨ s = LStatus.rented ∨ s = LStatus.cancelled)

/-- Rebuild step 2: `EventModel.updateMany({}, {$set: {status:'pending',
retries: 0}})`. -/
def rebuildEvents (evs : List LedgerEntry) : List LedgerEntry :=
  evs.map fun e => { e with status := EvStatus.pending, retries := 0 }

/-- Rebuild step 3: delete the NFT rows carrying a `tokenAddress` (every
modelled asset record does — the field is required by the schema, and draft
assets live in the separate `Draft` collection), delete the listings in a
confirmed status (drafts and other locally-originated states survive), and
delete every rental. -/
def rebuildDB (db : DB) : DB :=
  { nfts := [],
    listings := db.listings.filter (fun l => !confirmedStatus l.status),
    rentals := [],
    nextId := db.nextId }

/-- Rebuild step 1: reset the checkpoint row to
`Math.max(0, latest - 50000)` (truncated subtraction on `Nat`). -/
def rebuildSync (latest now : Nat) : Option SyncRow :=
  some ⟨latest - 50000, now⟩

/-! ## Observation helpers -/

/-- Number of ledger rows carrying the natural key `(tx, li)`. -/
def countKey (L : List LedgerEntry) (tx : String) (li : Nat) : Nat :=
  (L.filter (fun e => decide (e.txHash = tx ∧ e.logIndex = li))).length

/-- Erase the wall-clock timestamp of an asset record. -/
def normNFT (r : NFTRecord) : NFTRecord :=
  { r with updatedAt := 0 }

/-- Erase the database-internal id and the wall-clock timestamp of a
listing record. -/
def normListing (l : ListingRecord) : ListingRecord :=
  { l with docId := 0, confirmedAt := none }

/-- Erase the database-internal listing reference and the wall-clock
timestamp of a rental record. -/
def normRental (r : RentalRecord) : RentalRecord :=
  { r with listingId := 0, updatedAt := 0 }

/-- Erase the wall-clock timestamp of a ledger entry. -/
def normEntry (e : LedgerEntry) : LedgerEntry :=
  { e with updatedAt := 0 }

/-- The ledger-derived content of the read models: every field except
wall-clock timestamps (`updatedAt` / `confirmedAt`), Mongo-internal ids and
the id allocator. -/
def normDB (db : DB) : DB :=
  { nfts := db.nfts.map normNFT,
    listings := db.listings.map normListing,
    rentals := db.rentals.map normRental,
    nextId := 0 }

/-- Two listing rows are compatible with the partial unique index of
`Listing.ts` when they are not both `ACTIVE` for the same asset. -/
def ListingCompat (a b : ListingRecord) : Prop :=
  ¬(a.status = LStatus.active ∧ b.status = LStatus.active ∧
    a.tokenAddress = b.tokenAddress ∧ a.tokenId = b.tokenId)

instance : DecidableRel ListingCompat := fun a b => by
  unfold ListingCompat; infer_instance

/-- At most one `ACTIVE` listing per asset identity `(tokenAddress,
tokenId)` — the invariant enforced by the partial unique index of
`Listing.ts`. -/
def ActiveUnique (db : DB) : Prop :=
  db.listings.Pairwise ListingCompat

instance (db : DB) : Decidable (ActiveUnique db) := by
  unfold ActiveUnique; infer_instance

/-- The replay-invariant core of a ledger entry: what `rebuildEvents`
followed by timestamp erasure leaves of it (key, position, payload). -/
def resetCore (e : LedgerEntry) : LedgerEntry :=
  normEntry { e with status := EvStatus.pending, retries := 0 }

/-- The listing collection decomposes as an untouched prefix `ds` of
locally-originated rows followed by chain-linked rows (which carry a
ledger-assigned id and sit in a confirmed status).  The projector's
handlers filter by `onChainListingId`, so they preserve this shape. -/
def DraftsPrefix (ds : List ListingRecord) (db : DB) : Prop :=
  ∃ ts, db.listings = ds ++ ts ∧
    ∀ l ∈ ts, l.onChainListingId ≠ none ∧ confirmedStatus l.status = true

/-! ## Concrete fixtures used by counterexamples and witnesses -/

/-- An asset record for token 1 of contract `0xaaaa`, owned by `owner`. -/
def exNFT (owner : String) : NFTRecord :=
  { tokenAddress := "0xaaaa", tokenId := "1", creator := owner, owner := owner,
    metadataHash := "mh", mintTxHash := "0xmint", blockNumber := 1,
    renter := none, expiresAt := none, updatedAt := 0 }

/-- An active listing for that asset with the given document id and
ledger-assigned listing id. -/
def exActiveListing (docId n : Nat) : ListingRecord :=
  { docId := docId, id := some "app-id-9", onChainListingId := some n,
    sellerAddress := "0xb",
    tokenAddress := "0xaaaa", tokenId := "1", pricePerDay := "5",
    minDuration := 1, maxDuration := 7, metadataHash := "mh",
    status := LStatus.active, txHash := some "0xl", blockNumber := some 2,
    confirmedAt := some 0 }

/-- A locally-originated draft listing (no ledger-assigned id yet). -/
def exDraftListing : ListingRecord :=
  { docId := 77, id := some "local-draft-77", onChainListingId := none,
    sellerAddress := "0xd",
    tokenAddress := "0xdddd", tokenId := "9", pricePerDay := "3",
    minDuration := 1, maxDuration := 3, metadataHash := "dh",
    status := LStatus.localDraft, txHash := none, blockNumber := none,
    confirmedAt := none }

/-- A projector-inserted listing for a different asset: it stores no
app-internal `id` (the projector's upsert never writes one) and was later
cancelled. -/
def exCancelledListing : ListingRecord :=
  { docId := 3, id := none, onChainListingId := some 7,
    sellerAddress := "0xb", tokenAddress := "0xcccc", tokenId := "2",
    pricePerDay := "4", minDuration := 1, maxDuration := 5,
    metadataHash := "mh2", status := LStatus.cancelled,
    txHash := some "0xl7", blockNumber := some 3, confirmedAt := some 0 }

/-- A ledger entry carrying a `ListingCreated` bag for that asset with
seller `0xB` and listing id `n`. -/
def exListingEntry (n : Nat) : LedgerEntry :=
  { txHash := "0xt8", logIndex := 0, blockNumber := 5,
    contractAddress := "0xmkt",
    args := .listingCreated n "0xB" "0xAAAA" "1" "5" 1 7 "mh",
    status := EvStatus.pending, retries := 0, updatedAt := 0 }

/-- A ledger entry carrying an `NFTMinted` bag for that asset with
creator `0xB`. -/
def exMintEntry : LedgerEntry :=
  { txHash := "0xt1", logIndex := 0, blockNumber := 1,
    contractAddress := "0xAAAA",
    args := .minted "1" "0xB" "uri" "mh",
    status := EvStatus.pending, retries := 0, updatedAt := 0 }

/-- A ledger entry carrying a `Rented` bag for listing id `n`. -/
def exRentEntry (n : Nat) : LedgerEntry :=
  { txHash := "0xt9", logIndex := 1, blockNumber := 9,
    contractAddress := "0xmkt",
    args := .rented n "0xC" "0xAAAA" "1" 1234 "35",
    status := EvStatus.pending, retries := 0, updatedAt := 0 }

/-- A ledger entry carrying a `ListingCancelled` bag for listing id `n`. -/
def exCancelEntry (n : Nat) : LedgerEntry :=
  { txHash := "0xtc", logIndex := 2, blockNumber := 11,
    contractAddress := "0xmkt",
    args := .listingCancelled n "0xAAAA" "1",
    status := EvStatus.pending, retries := 0, updatedAt := 0 }

/-- The database holding the minted asset (owner `0xb`) and an active
listing `9` occupying it. -/
def exDB1 : DB :=
  { nfts := [exNFT "0xb"], listings := [exActiveListing 0 9], rentals := [],
    nextId := 1 }

/-- A queued mint log, as decoded by the listener. -/
def exQueued : QueuedEvent :=
  { blockNumber := 1, logIndex := 0, txHash := "0xt1",
    contractAddress := "0xAAAA", args := .minted "1" "0xB" "uri" "mh" }

end NftPipeline

namespace NftPipeline

/-! ## Generic lemmas about the list helpers -/

theorem splitFirst_eq_none_iff (p : α → Bool) (l : List α) :
    splitFirst p l = none ↔ ∀ x ∈ l, p x = false := by
  induction l with
  | nil => simp [splitFirst]
  | cons a l ih =>
    by_cases h : p a <;> simp [splitFirst, h]
    cases hs : splitFirst p l <;> simp_all

theorem splitFirst_eq_some (p : α → Bool) {l pre post : List α} {x : α}
    (h : splitFirst p l = some (pre, x, post)) :
    l = pre ++ x :: post ∧ p x = true ∧ ∀ y ∈ pre, p y = false := by
  induction l generalizing pre x post with
  | nil => simp [splitFirst] at h
  | cons a l ih =>
    by_cases ha : p a
    · rw [splitFirst, if_pos ha] at h
      simp only [Option.some.injEq, Prod.mk.injEq] at h
      obtain ⟨h1, h2, h3⟩ := h
      subst h1 h2 h3
      simpa using ha
    · rw [splitFirst, if_neg ha] at h
      cases hs : splitFirst p l with
      | none => rw [hs] at h; exact absurd h (by simp)
      | some t =>
        obtain ⟨tpre, tx, tpost⟩ := t
        rw [hs] at h
        simp only [Option.some.injEq, Prod.mk.injEq] at h
        obtain ⟨h1, h2, h3⟩ := h
        obtain ⟨e1, e2, e3⟩ := ih hs
        subst h1 h2 h3
        refine ⟨by simp [e1], e2, ?_⟩
        intro y hy
        rcases List.mem_cons.mp hy with hy | hy
        · subst hy; simpa using ha
        · exact e3 y hy

theorem splitFirst_map (f : α → β) (q : β → Bool) (l : List α) :
    splitFirst q (l.map f) =
      Option.map (fun t => (t.1.map f, f t.2.1, t.2.2.map f))
        (splitFirst (fun a => q (f a)) l) := by
  induction l with
  | nil => simp [splitFirst]
  | cons a l ih =>
    by_cases h : q (f a)
    · simp [splitFirst, h]
    · simp only [List.map_cons, splitFirst, h, if_neg, Bool.false_eq_true,
        not_false_iff, ih]
      cases splitFirst (fun a => q (f a)) l <;> simp

theorem natSub_cast_max (a b : ℕ) :
    ((a - b : ℕ) : ℤ) = max 0 ((a : ℤ) - (b : ℤ)) := by
  rcases le_total b a with h | h
  · rw [Nat.cast_sub h, max_eq_right]
    simpa using (Nat.cast_le (α := ℤ)).mpr h
  · rw [Nat.sub_eq_zero_of_le h, max_eq_left]
    · simp
    · simpa using (Nat.cast_le (α := ℤ)).mpr h

/-! ## C3 — idempotent ledger insert on the natural key -/

/-- C3: inserting the same `(transactionHash, logIndex)` pair twice never
creates two ledger rows and leaves the first row's content unchanged (the
second insert is a complete no-op, even if the second decoded payload were
different), and the key count never exceeds one; both outcomes are ordinary
returns (success), since `enqueueEvent` is total. -/
theorem c3_ledger_insert_idempotent (L : List LedgerEntry)
    (ev ev2 : QueuedEvent)
    (hkey : ev2.txHash = ev.txHash ∧ ev2.logIndex = ev.logIndex) :
    enqueueEvent (enqueueEvent L ev) ev2 = enqueueEvent L ev ∧
    ∀ tx li, countKey L tx li ≤ 1 → countKey (enqueueEvent L ev) tx li ≤ 1 := by
  obtain ⟨hk1, hk2⟩ := hkey
  have hpred :
      (fun e : LedgerEntry => decide (e.txHash = ev2.txHash ∧ e.logIndex = ev2.logIndex)) =
        fun e => decide (e.txHash = ev.txHash ∧ e.logIndex = ev.logIndex) := by
    funext e; rw [hk1, hk2]
  constructor
  · by_cases h : L.any fun e => decide (e.txHash = ev.txHash ∧ e.logIndex = ev.logIndex)
    · have h1 : enqueueEvent L ev = L := by
        rw [enqueueEvent, if_pos h]
      rw [h1, enqueueEvent, hpred, if_pos h]
    · have h1 : enqueueEvent L ev = L ++ [insertedRow ev] := by
        rw [enqueueEvent, if_neg h]
      rw [h1, enqueueEvent, hpred, if_pos (by simp [List.any_append, insertedRow])]
  · intro tx li hle
    by_cases h : L.any fun e => decide (e.txHash = ev.txHash ∧ e.logIndex = ev.logIndex)
    · rw [enqueueEvent, if_pos h]; exact hle
    · rw [enqueueEvent, if_neg h]
      rw [countKey, List.filter_append, List.length_append]
      rw [countKey] at hle
      by_cases hm : ev.txHash = tx ∧ ev.logIndex = li
      · have h0 : (L.filter fun e => decide (e.txHash = tx ∧ e.logIndex = li)) = [] := by
          rw [List.filter_eq_nil_iff]
          intro e he
          have hne := (List.any_eq_true.not.mp h)
          push_neg at hne
          have hne := hne e he
          simp only [decide_eq_true_eq] at hne ⊢
          rw [← hm.1, ← hm.2]
          simpa using hne
        have hb := List.length_filter_le
          (fun e : LedgerEntry => decide (e.txHash = tx ∧ e.logIndex = li))
          [insertedRow ev]
        rw [h0]
        simp only [List.length_cons, List.length_nil, List.length_eq_zero] at hb ⊢
        omega
      · have h0 : (List.filter (fun e => decide (e.txHash = tx ∧ e.logIndex = li))
            [insertedRow ev]) = [] := by
          simp only [List.filter_cons, List.filter_nil, insertedRow,
            decide_eq_true_eq]
          rw [if_neg hm]
        rw [h0]
        simpa using hle

/-- Witness for C3 at the concrete queued mint log. -/
theorem c3_ledger_insert_idempotent_witness :
    enqueueEvent (enqueueEvent [] exQueued) exQueued = enqueueEvent [] exQueued ∧
    countKey (enqueueEvent [] exQueued) "0xt1" 0 ≤ 1 :=
  ⟨(c3_ledger_insert_idempotent [] exQueued exQueued ⟨rfl, rfl⟩).1,
   (c3_ledger_insert_idempotent [] exQueued exQueued ⟨rfl, rfl⟩).2 "0xt1" 0 (by decide)⟩

/-! ## C8 — startup resume position -/

/-- C8: with a persisted checkpoint `c`, scanning resumes from
`max(0, c − reorgGuard)` (the checkpoint row itself is not rewritten); with
no checkpoint, the cursor is initialized to the current height minus a
100-block safety window and persisted immediately. -/
theorem c8_listener_startup_resume (G cur now : Nat) (s : SyncRow) :
    (loadState (some s) G cur now).mem = s.lastProcessedBlock - G ∧
    ((loadState (some s) G cur now).mem : ℤ) =
      max 0 ((s.lastProcessedBlock : ℤ) - (G : ℤ)) ∧
    (loadState (some s) G cur now).store = some s ∧
    (loadState none G cur now).mem = cur - 100 ∧
    (loadState none G cur now).store = some ⟨cur - 100, now⟩ :=
  ⟨rfl, natSub_cast_max _ _, rfl, rfl, rfl⟩

/-! ## C9 — rebuild tool frame -/

/-- C9: the rebuild tool marks every ledger entry pending with retry count 0
while leaving key, position and argument bag untouched; resets the
checkpoint to `latest − 50000`; clears asset records and rentals entirely;
and among listings deletes exactly those in a confirmed status
(`ACTIVE`/`RENTED`/`CANCELLED`), leaving locally-originated listings in
place. -/
theorem c9_rebuild_frame (db : DB) (evs : List LedgerEntry) (latest now : Nat)
    (l : ListingRecord) (hl : l ∈ db.listings) :
    (∀ e ∈ rebuildEvents evs, e.status = EvStatus.pending ∧ e.retries = 0) ∧
    (∀ i : ℕ, ((rebuildEvents evs)[i]?).map
        (fun e : LedgerEntry =>
          (e.txHash, e.logIndex, e.blockNumber, e.contractAddress, e.args)) =
      (evs[i]?).map
        (fun e : LedgerEntry =>
          (e.txHash, e.logIndex, e.blockNumber, e.contractAddress, e.args))) ∧
    rebuildSync latest now = some ⟨latest - 50000, now⟩ ∧
    (rebuildDB db).nfts = [] ∧
    (rebuildDB db).rentals = [] ∧
    (l ∈ (rebuildDB db).listings ↔
      ¬(l.status = LStatus.active ∨ l.status = LStatus.rented ∨
        l.status = LStatus.cancelled)) := by
  refine ⟨?_, ?_, rfl, rfl, rfl, ?_⟩
  · intro e he
    simp only [rebuildEvents, List.mem_map] at he
    obtain ⟨a, _, rfl⟩ := he
    exact ⟨rfl, rfl⟩
  · intro i
    simp only [rebuildEvents, List.getElem?_map, Option.map_map]
    cases evs[i]? <;> rfl
  · simp only [rebuildDB, List.mem_filter, hl, true_and, confirmedStatus]
    simp

/-- Witness for C9: the active listing of `exDB1` is deleted by rebuild. -/
theorem c9_rebuild_frame_witness :
    exActiveListing 0 9 ∉ (rebuildDB exDB1).listings :=
  fun hmem =>
    ((c9_rebuild_frame exDB1 [] 60000 3 (exActiveListing 0 9)
        (by decide)).2.2.2.2.2.mp hmem) (Or.inl rfl)

/-! ## C10 — rental grant with no matching listing is a silent no-op -/

/-- C10: a `Rented` entry whose listing id matches no listing record leaves
the derived state completely unchanged (no rental row, no listing change, no
asset holder/expiry update) yet is applied without error, so the sequential
worker marks it `processed`. -/
theorem c10_rented_missing_listing (db : DB) (evs : List LedgerEntry)
    (e : LedgerEntry) (now n expires : Nat) (renter ta ti total : String)
    (hargs : e.args = .rented n renter ta ti expires total)
    (hmiss : ∀ l ∈ db.listings, l.onChainListingId ≠ some n) :
    applyEvent db e now = some db ∧
    (selectPending evs = some e →
      processNextPending db evs now false =
        (db, markEntry evs e.txHash e.logIndex
          (fun x => { x with status := EvStatus.processed, updatedAt := now }))) := by
  have hnone : splitFirst (fun l => decide (l.onChainListingId = some n)) db.listings = none := by
    rw [splitFirst_eq_none_iff]
    intro x hx
    simpa using hmiss x hx
  have happ : applyEvent db e now = some db := by
    rw [applyEvent, hargs]
    simp [handleRented, hnone]
  refine ⟨happ, fun hsel => ?_⟩
  rw [processNextPending, hsel]
  simp [happ]

/-- Witness for C10 at a concrete `Rented` entry with no matching listing. -/
theorem c10_rented_missing_listing_witness :
    applyEvent exDB1 (exRentEntry 4) 3 = some exDB1 ∧
    processNextPending exDB1 [exRentEntry 4] 3 false =
      (exDB1, markEntry [exRentEntry 4] (exRentEntry 4).txHash
        (exRentEntry 4).logIndex
        (fun x => { x with status := EvStatus.processed, updatedAt := 3 })) :=
  ⟨(c10_rented_missing_listing exDB1 [exRentEntry 4] (exRentEntry 4) 3 4 1234
      "0xC" "0xAAAA" "1" "35" rfl (by decide)).1,
   (c10_rented_missing_listing exDB1 [exRentEntry 4] (exRentEntry 4) 3 4 1234
      "0xC" "0xAAAA" "1" "35" rfl (by decide)).2 (by decide)⟩

/-! ## Selection and status-transition lemmas -/

theorem selStep_pending (acc : Option LedgerEntry) (e b : LedgerEntry)
    (hacc : ∀ c, acc = some c → c.status = EvStatus.pending)
    (h : selStep acc e = some b) : b.status = EvStatus.pending := by
  rw [selStep.eq_def] at h
  by_cases he : e.status = EvStatus.pending
  · rw [if_pos he] at h
    cases hc : acc with
    | none => rw [hc] at h; cases h; assumption
    | some c =>
      rw [hc] at h
      dsimp only at h
      by_cases hlt : entryKeyLt e c = true
      · rw [if_pos hlt] at h; cases h; assumption
      · rw [if_neg hlt] at h; exact hacc _ (hc.trans h)
  · rw [if_neg he] at h
    exact hacc _ h

theorem selectPending_pending (evs : List LedgerEntry) (e : LedgerEntry)
    (h : selectPending evs = some e) : e.status = EvStatus.pending := by
  rw [selectPending] at h
  suffices H : ∀ (l : List LedgerEntry) (acc : Option LedgerEntry),
      (∀ c, acc = some c → c.status = EvStatus.pending) →
      l.foldl selStep acc = some e → e.status = EvStatus.pending by
    exact H evs none (by simp) h
  intro l
  induction l with
  | nil => intro acc hacc hfold; exact hacc _ hfold
  | cons a l ih =>
    intro acc hacc hfold
    exact ih (selStep acc a) (fun c hc => selStep_pending acc a c hacc hc) hfold

/-! ## C5 — bounded handler retries in the sequential worker -/

/-- C5: only pending entries are selected for application; a handler throw
increments the retry counter by exactly one, leaving the entry pending while
the counter is below 5 and marking it failed once it reaches 5; a successful
application marks the entry processed.  The concluding conjunct replays the
claim's scenario: an entry that throws twice and succeeds on its third
application ends processed with retry count 2, not failed. -/
theorem c5_projector_retry_bound (db : DB) (evs : List LedgerEntry)
    (now : Nat) (e : LedgerEntry) (hsel : selectPending evs = some e)
    (huniq : ∀ x ∈ evs, x.txHash = e.txHash ∧ x.logIndex = e.logIndex → x = e) :
    e.status = EvStatus.pending ∧
    ((processNextPending db evs now true).1 = db ∧
     (processNextPending db evs now true).2 =
        markEntry evs e.txHash e.logIndex (fun _ =>
          { e with retries := e.retries + 1,
                   status := if e.retries + 1 ≥ 5 then EvStatus.failed
                             else EvStatus.pending,
                   updatedAt := now })) ∧
    (∀ db', applyEvent db e now = some db' →
      processNextPending db evs now false =
        (db', markEntry evs e.txHash e.logIndex (fun x =>
          { x with status := EvStatus.processed, updatedAt := now }))) ∧
    ((processNextPending
        (processNextPending
          (processNextPending exDB1 [exCancelEntry 9] 1 true).1
          (processNextPending exDB1 [exCancelEntry 9] 1 true).2 2 true).1
        (processNextPending
          (processNextPending exDB1 [exCancelEntry 9] 1 true).1
          (processNextPending exDB1 [exCancelEntry 9] 1 true).2 2 true).2
        3 false).2 =
      [{ (exCancelEntry 9) with
          retries := 2
          status := EvStatus.processed
          updatedAt := 3 }]) := by
  have hpend := selectPending_pending evs e hsel
  have hstep : processNextPending db evs now true =
      (db, markEntry evs e.txHash e.logIndex (fun x =>
        { x with retries := x.retries + 1,
                 status := if x.retries + 1 ≥ 5 then EvStatus.failed
                           else x.status,
                 updatedAt := now })) := by
    rw [processNextPending, hsel]
    rfl
  refine ⟨hpend, ⟨?_, ?_⟩, ?_, by decide⟩
  · rw [hstep]
  · rw [hstep]
    simp only [markEntry]
    apply List.map_congr_left
    intro x hx
    by_cases hk : x.txHash = e.txHash ∧ x.logIndex = e.logIndex
    · rw [if_pos hk, if_pos hk]
      have hxe : x = e := huniq x hx hk
      subst hxe
      rw [hpend]
    · rw [if_neg hk, if_neg hk]
  · intro db' happ
    rw [processNextPending, hsel]
    simp [happ]

/-- Witness for C5 at a concrete pending cancel entry. -/
theorem c5_projector_retry_bound_witness :
    (exCancelEntry 9).status = EvStatus.pending ∧
    (processNextPending exDB1 [exCancelEntry 9] 1 true).1 = exDB1 :=
  ⟨(c5_projector_retry_bound exDB1 [exCancelEntry 9] 1 (exCancelEntry 9)
      (by decide) (by decide)).1,
   (c5_projector_retry_bound exDB1 [exCancelEntry 9] 1 (exCancelEntry 9)
      (by decide) (by decide)).2.1.1⟩

/-! ## C4 — backfill checkpoint advance and bounded range retries -/

/-- C4: a block range that succeeds on some attempt within the retry bound
(attempt counters 0‥maxRetries, i.e. up to `maxRetries + 1` attempts)
advances the checkpoint to the range end and scanning continues with the
next range; when every attempt for the range fails, backfill stops at that
range with the checkpoint (memory, persisted row and write log) completely
unchanged. -/
theorem c4_backfill_checkpoint_retry (ok : Nat → Nat → Bool)
    (batch maxRetries latest now fuel lo : Nat) (st : ListenerState)
    (hlo : lo ≤ latest) :
    ((∃ k, k ≤ maxRetries ∧ ok lo k = true) →
      backfillAux ok batch maxRetries latest now (fuel + 1) st lo =
        backfillAux ok batch maxRetries latest now fuel
          (saveState st (min (lo + batch - 1) latest) now) (lo + batch) ∧
      (st.mem < min (lo + batch - 1) latest →
        (saveState st (min (lo + batch - 1) latest) now).mem =
            min (lo + batch - 1) latest ∧
        (saveState st (min (lo + batch - 1) latest) now).store =
            some ⟨min (lo + batch - 1) latest, now⟩)) ∧
    ((∀ k, k ≤ maxRetries → ok lo k = false) →
      backfillAux ok batch maxRetries latest now (fuel + 1) st lo = st) := by
  constructor
  · rintro ⟨k, hk, hok⟩
    have htry : tryRange (ok lo) maxRetries = true := by
      rw [tryRange, List.any_eq_true]
      exact ⟨k, List.mem_range.mpr (Nat.lt_succ_of_le hk), hok⟩
    constructor
    · rw [backfillAux, if_pos hlo, if_pos htry]
    · intro hmem
      rw [saveState, if_pos hmem]
      exact ⟨rfl, rfl⟩
  · intro hfail
    have htry : tryRange (ok lo) maxRetries = false := by
      rw [tryRange]
      rw [List.any_eq_false]
      intro k hk
      exact hfail k (Nat.lt_succ_iff.mp (List.mem_range.mp hk)) ▸ by
        simp [hfail k (Nat.lt_succ_iff.mp (List.mem_range.mp hk))]
    rw [backfillAux, if_pos hlo, htry]
    simp

/-- Witness for C4: the spec's scenario — range `[100, 109]`, failures on
attempts 1–3 and success on attempt 4 advance the checkpoint to 109; four
failures leave it untouched. -/
theorem c4_backfill_checkpoint_retry_witness :
    (saveState ⟨100, some ⟨100, 0⟩, []⟩ (min (100 + 10 - 1) 109) 1).mem =
        min (100 + 10 - 1) 109 ∧
    backfillAux (fun _ _ => false) 10 3 109 1 2 ⟨100, some ⟨100, 0⟩, []⟩ 100 =
      ⟨100, some ⟨100, 0⟩, []⟩ :=
  ⟨(((c4_backfill_checkpoint_retry (fun _ k => decide (k = 3)) 10 3 109 1 1 100
        ⟨100, some ⟨100, 0⟩, []⟩ (by decide)).1 ⟨3, by decide, by decide⟩).2
      (by decide)).1,
   (c4_backfill_checkpoint_retry (fun _ _ => false) 10 3 109 1 1 100
        ⟨100, some ⟨100, 0⟩, []⟩ (by decide)).2 (fun _ _ => rfl)⟩

/-! ## C7 — persisted checkpoint monotonicity -/

theorem saveState_chain (st : ListenerState) (b now : Nat)
    (h1 : List.Chain' (· < ·) st.writes)
    (h2 : ∀ w ∈ st.writes, w ≤ st.mem) :
    List.Chain' (· < ·) (saveState st b now).writes ∧
    ∀ w ∈ (saveState st b now).writes, w ≤ (saveState st b now).mem := by
  rw [saveState]
  by_cases h : b > st.mem
  · rw [if_pos h]
    constructor
    · apply List.Chain'.append h1 (List.chain'_singleton b)
      intro x hx y hy
      simp only [List.head?_cons, Option.mem_def, Option.some.injEq] at hy
      subst hy
      exact lt_of_le_of_lt (h2 x (List.mem_of_mem_getLast? hx)) h
    · intro w hw
      rcases List.mem_append.mp hw with hw | hw
      · exact le_of_lt (lt_of_le_of_lt (h2 w hw) h)
      · simp only [List.mem_singleton] at hw
        subst hw
        exact le_refl _
  · rw [if_neg h]
    exact ⟨h1, h2⟩

theorem savesRun_chain (bs : List (Nat × Nat)) :
    ∀ st : ListenerState, List.Chain' (· < ·) st.writes →
      (∀ w ∈ st.writes, w ≤ st.mem) →
      List.Chain' (· < ·) (savesRun st bs).writes ∧
      ∀ w ∈ (savesRun st bs).writes, w ≤ (savesRun st bs).mem := by
  induction bs with
  | nil => intro st h1 h2; exact ⟨h1, h2⟩
  | cons b bs ih =>
    intro st h1 h2
    obtain ⟨g1, g2⟩ := saveState_chain st b.1 b.2 h1 h2
    exact ih (saveState st b.1 b.2) g1 g2

theorem backfillAux_chain (ok : Nat → Nat → Bool)
    (batch maxRetries latest now : Nat) (fuel : Nat) :
    ∀ (st : ListenerState) (lo : Nat), List.Chain' (· < ·) st.writes →
      (∀ w ∈ st.writes, w ≤ st.mem) →
      List.Chain' (· < ·)
        (backfillAux ok batch maxRetries latest now fuel st lo).writes := by
  induction fuel with
  | zero => intro st lo h1 _; exact h1
  | succ fuel ih =>
    intro st lo h1 h2
    rw [backfillAux]
    by_cases hlo : lo ≤ latest
    · rw [if_pos hlo]
      by_cases htry : tryRange (ok lo) maxRetries = true
      · rw [if_pos htry]
        obtain ⟨g1, g2⟩ :=
          saveState_chain st (min (lo + batch - 1) latest) now h1 h2
        exact ih _ _ g1 g2
      · rw [if_neg htry]; exact h1
    · rw [if_neg hlo]; exact h1

/-- C7 (amended): within a single run — any sequence of `saveState` calls,
and in particular any backfill run — the values persisted to the checkpoint
row are strictly increasing, hence monotonically non-decreasing. -/
theorem c7_checkpoint_monotone_within_run (m : Nat) (so : Option SyncRow)
    (bs : List (Nat × Nat)) (ok : Nat → Nat → Bool)
    (batch maxRetries latest now fuel lo : Nat) :
    List.Chain' (· < ·) ((savesRun ⟨m, so, []⟩ bs).writes) ∧
    List.Chain' (· < ·)
      ((backfillAux ok batch maxRetries latest now fuel ⟨m, so, []⟩ lo).writes) :=
  ⟨(savesRun_chain bs ⟨m, so, []⟩ (by simp) (by simp)).1,
   backfillAux_chain ok batch maxRetries latest now fuel ⟨m, so, []⟩ lo
     (by simp) (by simp)⟩

/-- Counterexample to C7 as stated: with a persisted checkpoint at block
100, reorg guard 12 and batch size 10, a restart (no rebuild involved)
re-scans from block 88 and the very first checkpoint write persists 97,
strictly below the previously persisted 100. -/
theorem c7_checkpoint_decrease_counterexample :
    (loadState (some ⟨100, 0⟩) 12 100 0).store = some ⟨100, 0⟩ ∧
    (backfillEvents (fun _ _ => true) 10 3 100 1
        (loadState (some ⟨100, 0⟩) 12 100 0)).writes = [97, 100] ∧
    97 < 100 := by decide

/-! ## C1 — listing-created projection and the ownership-snapshot check -/

/-- Counterexample to C1 as stated: in `exDB1` the asset exists, its current
owner `0xb` equals the entry's seller snapshot, yet applying the
listing-created entry for listing 8 does **not** upsert an active listing —
listing 9 already occupies the asset's partial-unique slot, so the write
raises the duplicate-key error (`none`) and the worker takes the retry path
(retries becomes 1), not the success path. -/
theorem c1_owner_match_conflict_counterexample :
    (exDB1.nfts.find? (fun nf =>
        decide (nf.tokenAddress = "0xaaaa" ∧ nf.tokenId = "1"))).map
        NFTRecord.owner = some "0xb" ∧
    lowerStr "0xB" = "0xb" ∧
    applyEvent exDB1 (exListingEntry 8) 0 = none ∧
    (processNextPending exDB1 [exListingEntry 8] 0 false).2 =
      [{ (exListingEntry 8) with
          retries := 1
          updatedAt := 0 }] := by decide

/-- C1 (amended): an absent asset record or an owner/seller mismatch makes
the listing-created entry a successful no-op (rejected, not errored).  When
the owner matches, the write succeeds — leaving an `ACTIVE` listing keyed by
the ledger-assigned id — only when it violates neither unique index of
`Listing.ts`: no other listing may be active for the same asset, and, on
the insert path (no row carries that on-chain id yet), no listing row
missing the app-internal `id` may exist, because the inserted document
stores no `id` either and the non-sparse unique index on `id` admits one
such row at most; when an id-less row exists the insert raises the
duplicate-key error instead.  Any successfully applied entry is marked
processed by the worker. -/
theorem c1_listing_created_projection (db : DB) (e : LedgerEntry)
    (now n minD maxD : Nat) (seller ta ti price mh : String)
    (hargs : e.args = .listingCreated n seller ta ti price minD maxD mh)
    (hta : ta ≠ "") (hs : seller ≠ "") (hti : ti ≠ "") :
    (db.nfts.find? (fun nf =>
        decide (nf.tokenAddress = (lowerStr ta) ∧ nf.tokenId = ti)) = none →
      applyEvent db e now = some db) ∧
    (∀ nft, db.nfts.find? (fun nf =>
        decide (nf.tokenAddress = (lowerStr ta) ∧ nf.tokenId = ti)) = some nft →
      nft.owner ≠ (lowerStr seller) →
      applyEvent db e now = some db) ∧
    (∀ nft, db.nfts.find? (fun nf =>
        decide (nf.tokenAddress = (lowerStr ta) ∧ nf.tokenId = ti)) = some nft →
      nft.owner = (lowerStr seller) →
      (∀ l ∈ db.listings, l.onChainListingId ≠ some n) →
      (∀ l ∈ db.listings, activeConflict (lowerStr ta) ti l = false) →
      (∀ l ∈ db.listings, idMissing l = false) →
      ∃ db', applyEvent db e now = some db' ∧
        ∃ l ∈ db'.listings, l.onChainListingId = some n ∧
          l.status = LStatus.active ∧ l.sellerAddress = (lowerStr seller) ∧
          l.tokenAddress = (lowerStr ta) ∧ l.tokenId = ti ∧
          l.txHash = some e.txHash) ∧
    (∀ nft pre x post, db.nfts.find? (fun nf =>
        decide (nf.tokenAddress = (lowerStr ta) ∧ nf.tokenId = ti)) = some nft →
      nft.owner = (lowerStr seller) →
      splitFirst (fun l => decide (l.onChainListingId = some n)) db.listings =
        some (pre, x, post) →
      (∀ l ∈ pre ++ post, activeConflict (lowerStr ta) ti l = false) →
      ∃ db', applyEvent db e now = some db' ∧
        ∃ l ∈ db'.listings, l.onChainListingId = some n ∧
          l.status = LStatus.active ∧ l.sellerAddress = (lowerStr seller) ∧
          l.tokenAddress = (lowerStr ta) ∧ l.tokenId = ti ∧
          l.txHash = some e.txHash) ∧
    (∀ nft l0, db.nfts.find? (fun nf =>
        decide (nf.tokenAddress = (lowerStr ta) ∧ nf.tokenId = ti)) = some nft →
      nft.owner = (lowerStr seller) →
      (∀ l ∈ db.listings, l.onChainListingId ≠ some n) →
      l0 ∈ db.listings → idMissing l0 = true →
      applyEvent db e now = none) ∧
    (∀ db' evs, applyEvent db e now = some db' → selectPending evs = some e →
      processNextPending db evs now false =
        (db', markEntry evs e.txHash e.logIndex (fun x =>
          { x with status := EvStatus.processed, updatedAt := now }))) := by
  have hguard : ¬(ta = "" ∨ seller = "" ∨ ti = "") := by
    rintro (h | h | h) <;> [exact hta h; exact hs h; exact hti h]
  have happly : applyEvent db e now =
      handleListingCreated db n seller ta ti price minD maxD mh e.txHash
        e.blockNumber now := by
    rw [applyEvent, hargs]
  refine ⟨?_, ?_, ?_, ?_, ?_, ?_⟩
  · intro hfind
    rw [happly, handleListingCreated, if_neg hguard, hfind]
  · intro nft hfind hown
    rw [happly, handleListingCreated, if_neg hguard, hfind]
    dsimp only
    rw [if_pos hown]
  · intro nft hfind hown hnone hnoc hid
    rw [happly, handleListingCreated, if_neg hguard, hfind]
    dsimp only
    rw [if_neg (not_not_intro hown)]
    have hsp : splitFirst
        (fun l => decide (l.onChainListingId = some n)) db.listings = none := by
      rw [splitFirst_eq_none_iff]
      intro l hl
      simpa using hnone l hl
    rw [hsp]
    have hconfA : db.listings.any (activeConflict (lowerStr ta) ti) = false := by
      rw [List.any_eq_false]
      intro y hy
      simp [hnoc y hy]
    have hconfB : db.listings.any idMissing = false := by
      rw [List.any_eq_false]
      intro y hy
      simp [hid y hy]
    dsimp only
    rw [if_neg (by simp [hconfA, hconfB])]
    refine ⟨_, rfl, ?_⟩
    refine ⟨_, List.mem_append.mpr (Or.inr (List.mem_cons_self _ _)), ?_⟩
    exact ⟨rfl, rfl, rfl, rfl, rfl, rfl⟩
  · intro nft pre x post hfind hown hsp hnoc
    rw [happly, handleListingCreated, if_neg hguard, hfind]
    dsimp only
    rw [if_neg (not_not_intro hown), hsp]
    obtain ⟨hdec, hpx, -⟩ := splitFirst_eq_some _ hsp
    have hconf : (pre ++ post).any (activeConflict (lowerStr ta) ti) = false := by
      rw [List.any_eq_false]
      intro y hy
      simp [hnoc y hy]
    dsimp only
    rw [if_neg (by simp [hconf])]
    refine ⟨_, rfl, ?_⟩
    refine ⟨_, List.mem_append.mpr (Or.inr (List.mem_cons_self _ _)), ?_⟩
    have hx : x.onChainListingId = some n := by simpa using hpx
    exact ⟨hx, rfl, rfl, rfl, rfl, rfl⟩
  · intro nft l0 hfind hown hnone hl0 hid0
    rw [happly, handleListingCreated, if_neg hguard, hfind]
    dsimp only
    rw [if_neg (not_not_intro hown)]
    have hsp : splitFirst
        (fun l => decide (l.onChainListingId = some n)) db.listings = none := by
      rw [splitFirst_eq_none_iff]
      intro l hl
      simpa using hnone l hl
    rw [hsp]
    have hconfB : db.listings.any idMissing = true := by
      rw [List.any_eq_true]
      exact ⟨l0, hl0, hid0⟩
    dsimp only
    rw [if_pos (by simp [hconfB])]
  · intro db' evs happ hsel
    rw [processNextPending, hsel]
    simp [happ]

/-- Witness for C1: the insert succeeds on a database holding only the
matching asset record, and is rejected by the `id` unique index when an
id-less (projector-inserted, since cancelled) listing row for an unrelated
asset is present. -/
theorem c1_listing_created_projection_witness :
    (∃ db', applyEvent ⟨[exNFT "0xb"], [], [], 0⟩ (exListingEntry 8) 0 =
        some db' ∧
      ∃ l ∈ db'.listings, l.onChainListingId = some 8 ∧
        l.status = LStatus.active ∧ l.sellerAddress = lowerStr "0xB" ∧
        l.tokenAddress = lowerStr "0xAAAA" ∧ l.tokenId = "1" ∧
        l.txHash = some (exListingEntry 8).txHash) ∧
    applyEvent ⟨[exNFT "0xb"], [exCancelledListing], [], 4⟩
      (exListingEntry 8) 0 = none :=
  ⟨(c1_listing_created_projection ⟨[exNFT "0xb"], [], [], 0⟩ (exListingEntry 8)
      0 8 1 7 "0xB" "0xAAAA" "1" "5" "mh" rfl (by decide) (by decide)
      (by decide)).2.2.1 (exNFT "0xb") (by decide) (by decide)
    (by intro l hl; exact absurd hl (List.not_mem_nil l))
    (by intro l hl; exact absurd hl (List.not_mem_nil l))
    (by intro l hl; exact absurd hl (List.not_mem_nil l)),
   (c1_listing_created_projection ⟨[exNFT "0xb"], [exCancelledListing], [], 4⟩
      (exListingEntry 8) 0 8 1 7 "0xB" "0xAAAA" "1" "5" "mh" rfl (by decide)
      (by decide) (by decide)).2.2.2.2.1 (exNFT "0xb") exCancelledListing
    (by decide) (by decide) (by decide) (by decide) (by decide)⟩

/-! ## C6 — at most one active listing per asset -/

theorem listingCompat_of_inactive_left (a b : ListingRecord)
    (h : a.status ≠ LStatus.active) : ListingCompat a b :=
  fun hc => h hc.1

theorem listingCompat_of_inactive_right (a b : ListingRecord)
    (h : b.status ≠ LStatus.active) : ListingCompat a b :=
  fun hc => h hc.2.1

theorem pairwise_replace_ok (pre post : List ListingRecord)
    (x y : ListingRecord)
    (hrel : ∀ z ∈ pre ++ post, ListingCompat z y ∧ ListingCompat y z)
    (h : List.Pairwise ListingCompat (pre ++ x :: post)) :
    List.Pairwise ListingCompat (pre ++ y :: post) := by
  rw [List.pairwise_append] at h ⊢
  obtain ⟨h1, h2, h3⟩ := h
  rw [List.pairwise_cons] at h2 ⊢
  refine ⟨h1, ⟨?_, h2.2⟩, ?_⟩
  · intro b hb
    exact (hrel b (List.mem_append.mpr (Or.inr hb))).2
  · intro a ha b hb
    rcases List.mem_cons.mp hb with hb | hb
    · subst hb
      exact (hrel a (List.mem_append.mpr (Or.inl ha))).1
    · exact h3 a ha b (List.mem_cons_of_mem _ hb)

theorem pairwise_append_ok (l : List ListingRecord) (y : ListingRecord)
    (hrel : ∀ z ∈ l, ListingCompat z y)
    (h : List.Pairwise ListingCompat l) :
    List.Pairwise ListingCompat (l ++ [y]) := by
  rw [List.pairwise_append]
  refine ⟨h, List.pairwise_singleton _ _, ?_⟩
  intro a ha b hb
  rw [List.mem_singleton] at hb
  subst hb
  exact hrel a ha

theorem noConflict_compat (rta rti : String) (y z : ListingRecord)
    (hy2 : y.tokenAddress = rta) (hy3 : y.tokenId = rti)
    (hz : activeConflict rta rti z = false) :
    ListingCompat z y ∧ ListingCompat y z := by
  have hz' : ¬(z.status = LStatus.active ∧ z.tokenAddress = rta ∧
      z.tokenId = rti) := by
    simpa [activeConflict] using hz
  constructor
  · rintro ⟨c1, c2, c3, c4⟩
    exact hz' ⟨c1, c3.trans hy2, c4.trans hy3⟩
  · rintro ⟨c1, c2, c3, c4⟩
    exact hz' ⟨c2, c3.symm.trans hy2, c4.symm.trans hy3⟩

theorem applyEvent_activeUnique (db db' : DB) (e : LedgerEntry) (now : Nat)
    (h : applyEvent db e now = some db') (hu : ActiveUnique db) :
    ActiveUnique db' := by
  rw [ActiveUnique] at hu ⊢
  rw [applyEvent] at h
  cases harg : e.args with
  | minted tokenId creator tokenURI metadataHash =>
    rw [harg] at h
    dsimp only at h
    rw [handleNFTMinted.eq_def] at h
    by_cases hg : creator = "" ∨ e.contractAddress = ""
    · rw [if_pos hg] at h
      cases Option.some.inj h; exact hu
    · rw [if_neg hg] at h
      cases hsp : splitFirst (fun nf =>
          decide (nf.tokenAddress = lowerStr e.contractAddress ∧
            nf.tokenId = tokenId)) db.nfts with
      | none => rw [hsp] at h; cases Option.some.inj h; exact hu
      | some t =>
        obtain ⟨pre, x, post⟩ := t
        rw [hsp] at h
        cases Option.some.inj h
        exact hu
  | listingCancelled n ta ti =>
    rw [harg] at h
    dsimp only at h
    rw [handleListingCancelled.eq_def] at h
    dsimp only at h
    cases h
    dsimp only
    rw [updateFirstBy]
    cases hsp : splitFirst
        (fun l => decide (l.onChainListingId = some n)) db.listings with
    | none => exact hu
    | some t =>
      obtain ⟨pre, x, post⟩ := t
      obtain ⟨hdec, -, -⟩ := splitFirst_eq_some _ hsp
      dsimp only
      rw [hdec] at hu
      apply pairwise_replace_ok pre post x _ ?_ hu
      intro z hz
      constructor
      · exact listingCompat_of_inactive_right _ _ (by simp)
      · exact listingCompat_of_inactive_left _ _ (by simp)
  | rented n renter ta ti expires total =>
    rw [harg] at h
    dsimp only at h
    rw [handleRented.eq_def] at h
    cases hsp : splitFirst
        (fun l => decide (l.onChainListingId = some n)) db.listings with
    | none =>
      rw [hsp] at h
      cases h; exact hu
    | some t =>
      obtain ⟨pre, x, post⟩ := t
      obtain ⟨hdec, -, -⟩ := splitFirst_eq_some _ hsp
      rw [hsp] at h
      dsimp only at h
      cases h
      dsimp only
      rw [hdec] at hu
      apply pairwise_replace_ok pre post x _ ?_ hu
      intro z hz
      constructor
      · exact listingCompat_of_inactive_right _ _ (by simp)
      · exact listingCompat_of_inactive_left _ _ (by simp)
  | listingCreated n seller ta ti price minD maxD mh =>
    rw [harg] at h
    dsimp only at h
    rw [handleListingCreated.eq_def] at h
    by_cases hg : ta = "" ∨ seller = "" ∨ ti = ""
    · rw [if_pos hg] at h; cases h; exact hu
    · rw [if_neg hg] at h
      cases hfind : db.nfts.find? (fun nf =>
          decide (nf.tokenAddress = (lowerStr ta) ∧ nf.tokenId = ti)) with
      | none => rw [hfind] at h; cases h; exact hu
      | some nft =>
        rw [hfind] at h
        dsimp only at h
        by_cases hown : nft.owner ≠ (lowerStr seller)
        · rw [if_pos hown] at h; cases h; exact hu
        · rw [if_neg hown] at h
          cases hsp : splitFirst
              (fun l => decide (l.onChainListingId = some n)) db.listings with
          | some t =>
            obtain ⟨pre, x, post⟩ := t
            obtain ⟨hdec, -, -⟩ := splitFirst_eq_some _ hsp
            rw [hsp] at h
            dsimp only at h
            cases hconf : (pre ++ post).any (activeConflict (lowerStr ta) ti) with
            | true => rw [hconf] at h; cases h
            | false =>
              rw [hconf] at h
              rw [if_neg (by simp)] at h
              cases Option.some.inj h
              dsimp only
              rw [hdec] at hu
              apply pairwise_replace_ok pre post x _ ?_ hu
              intro z hz
              exact noConflict_compat (lowerStr ta) ti _ z rfl rfl
                (by
                  have := List.any_eq_false.mp hconf z hz
                  simpa using this)
          | none =>
            rw [hsp] at h
            dsimp only at h
            cases hconf : (db.listings.any (activeConflict (lowerStr ta) ti) ||
                db.listings.any idMissing) with
            | true => rw [hconf] at h; cases h
            | false =>
              have hconfA : db.listings.any
                  (activeConflict (lowerStr ta) ti) = false :=
                (Bool.or_eq_false_iff.mp hconf).1
              rw [hconf] at h
              rw [if_neg (by simp)] at h
              cases Option.some.inj h
              dsimp only
              apply pairwise_append_ok _ _ ?_ hu
              intro z hz
              exact (noConflict_compat (lowerStr ta) ti _ z rfl rfl
                (by
                  have := List.any_eq_false.mp hconfA z hz
                  simpa using this)).1

/-- C6: every step of the sequential worker — handler success, handler
throw, duplicate-key rejection, or idle — preserves the invariant that at
most one listing is `ACTIVE` per asset identity. -/
theorem c6_active_listing_unique (db : DB) (evs : List LedgerEntry)
    (now : Nat) (crash : Bool) (hu : ActiveUnique db) :
    ActiveUnique (processNextPending db evs now crash).1 := by
  cases hsel : selectPending evs with
  | none => rw [processNextPending, hsel]; exact hu
  | some e =>
    cases crash with
    | true =>
      have hstep : (processNextPending db evs now true).1 = db := by
        rw [processNextPending, hsel]
        rfl
      rw [hstep]
      exact hu
    | false =>
      cases happ : applyEvent db e now with
      | none =>
        have hstep : (processNextPending db evs now false).1 = db := by
          rw [processNextPending, hsel]
          simp [happ]
        rw [hstep]
        exact hu
      | some db' =>
        have hstep : (processNextPending db evs now false).1 = db' := by
          rw [processNextPending, hsel]
          simp [happ]
        rw [hstep]
        exact applyEvent_activeUnique db db' e now happ hu

/-- Witness for C6 at the concrete database and rent entry. -/
theorem c6_active_listing_unique_witness :
    ActiveUnique (processNextPending exDB1 [exRentEntry 9] 2 false).1 :=
  c6_active_listing_unique exDB1 [exRentEntry 9] 2 false (by decide)

/-! ## Transport lemmas along the timestamp/id erasures

For C2 the two replays run with different wall clocks and id allocators, so
their states are related by the erasures `normNFT`/`normListing`/
`normRental`/`normEntry`.  Every predicate the handlers evaluate factors
through the erasure, and every update commutes with it, which the following
lemmas package. -/

theorem find?_map_eq (f : α → β) (p : α → Bool) (q : β → Bool)
    (hpq : ∀ a, p a = q (f a)) {l1 l2 : List α} (h : l1.map f = l2.map f) :
    (l1.find? p).map f = (l2.find? p).map f := by
  have e1 : p = fun a => q (f a) := funext hpq
  subst e1
  have k1 : ((l1.find? fun a => q (f a))).map f = (l1.map f).find? q := by
    rw [List.find?_map]; rfl
  have k2 : ((l2.find? fun a => q (f a))).map f = (l2.map f).find? q := by
    rw [List.find?_map]; rfl
  rw [k1, k2, h]

theorem any_map_eq (f : α → β) (p : α → Bool) (q : β → Bool)
    (hpq : ∀ a, p a = q (f a)) {l1 l2 : List α} (h : l1.map f = l2.map f) :
    l1.any p = l2.any p := by
  induction l1 generalizing l2 with
  | nil =>
    cases l2 with
    | nil => rfl
    | cons b m => simp at h
  | cons a l ih =>
    cases l2 with
    | nil => simp at h
    | cons b m =>
      simp only [List.map_cons, List.cons.injEq] at h
      obtain ⟨hab, hlm⟩ := h
      simp only [List.any_cons]
      rw [hpq a, hpq b, hab, ih hlm]

theorem splitFirst_map_eq (f : α → β) (p : α → Bool) (q : β → Bool)
    (hpq : ∀ a, p a = q (f a)) {l1 l2 : List α} (h : l1.map f = l2.map f) :
    Option.map (fun t => (t.1.map f, f t.2.1, t.2.2.map f))
        (splitFirst p l1) =
      Option.map (fun t => (t.1.map f, f t.2.1, t.2.2.map f))
        (splitFirst p l2) := by
  have e1 : p = fun a => q (f a) := funext hpq
  subst e1
  rw [← splitFirst_map, ← splitFirst_map, h]

theorem normDB_parts {db1 db2 : DB} (h : normDB db1 = normDB db2) :
    db1.nfts.map normNFT = db2.nfts.map normNFT ∧
    db1.listings.map normListing = db2.listings.map normListing ∧
    db1.rentals.map normRental = db2.rentals.map normRental := by
  rw [normDB, normDB, DB.mk.injEq] at h
  exact ⟨h.1, h.2.1, h.2.2.1⟩

theorem normDB_of_parts {db1 db2 : DB}
    (h1 : db1.nfts.map normNFT = db2.nfts.map normNFT)
    (h2 : db1.listings.map normListing = db2.listings.map normListing)
    (h3 : db1.rentals.map normRental = db2.rentals.map normRental) :
    normDB db1 = normDB db2 := by
  rw [normDB, normDB, DB.mk.injEq]
  exact ⟨h1, h2, h3, rfl⟩

theorem updateFirstBy_map_eq (f : α → β) (p : α → Bool) (q : β → Bool)
    (hpq : ∀ a, p a = q (f a)) (u1 u2 : α → α)
    (hu : ∀ a1 a2, f a1 = f a2 → f (u1 a1) = f (u2 a2))
    {l1 l2 : List α} (h : l1.map f = l2.map f) :
    (updateFirstBy p u1 l1).map f = (updateFirstBy p u2 l2).map f := by
  have hsp := splitFirst_map_eq f p q hpq h
  rw [updateFirstBy, updateFirstBy]
  cases h1 : splitFirst p l1 with
  | none =>
    cases h2 : splitFirst p l2 with
    | none => exact h
    | some t => rw [h1, h2] at hsp; simp at hsp
  | some t1 =>
    obtain ⟨pre1, x1, post1⟩ := t1
    cases h2 : splitFirst p l2 with
    | none => rw [h1, h2] at hsp; simp at hsp
    | some t2 =>
      obtain ⟨pre2, x2, post2⟩ := t2
      rw [h1, h2] at hsp
      simp only [Option.map_some', Option.some.injEq, Prod.mk.injEq] at hsp
      obtain ⟨hpre, hx, hpost⟩ := hsp
      dsimp only
      rw [List.map_append, List.map_append, List.map_cons, List.map_cons,
        hpre, hpost, hu x1 x2 hx]

theorem handleNFTMinted_norm (db1 db2 : DB)
    (tokenId creator metadataHash txHash contractAddress : String)
    (blockNumber t1 t2 : Nat) (h : normDB db1 = normDB db2) :
    Option.map normDB
        (handleNFTMinted db1 tokenId creator metadataHash txHash blockNumber
          contractAddress t1) =
      Option.map normDB
        (handleNFTMinted db2 tokenId creator metadataHash txHash blockNumber
          contractAddress t2) := by
  obtain ⟨hn, hl, hr⟩ := normDB_parts h
  rw [handleNFTMinted.eq_def, handleNFTMinted.eq_def]
  by_cases hg : creator = "" ∨ contractAddress = ""
  · rw [if_pos hg, if_pos hg]
    simpa using h
  · rw [if_neg hg, if_neg hg]
    have hsp := splitFirst_map_eq normNFT
      (fun nf => decide (nf.tokenAddress = lowerStr contractAddress ∧
        nf.tokenId = tokenId))
      (fun nf => decide (nf.tokenAddress = lowerStr contractAddress ∧
        nf.tokenId = tokenId))
      (fun _ => rfl) hn
    cases h1 : splitFirst (fun nf =>
        decide (nf.tokenAddress = lowerStr contractAddress ∧
          nf.tokenId = tokenId)) db1.nfts with
    | none =>
      cases h2 : splitFirst (fun nf =>
          decide (nf.tokenAddress = lowerStr contractAddress ∧
            nf.tokenId = tokenId)) db2.nfts with
      | none =>
        dsimp only
        simp only [Option.map_some', Option.some.injEq]
        refine normDB_of_parts ?_ hl hr
        rw [List.map_append, List.map_append, hn]
        rfl
      | some t => rw [h1, h2] at hsp; simp at hsp
    | some t1' =>
      obtain ⟨pre1, x1, post1⟩ := t1'
      cases h2 : splitFirst (fun nf =>
          decide (nf.tokenAddress = lowerStr contractAddress ∧
            nf.tokenId = tokenId)) db2.nfts with
      | none => rw [h1, h2] at hsp; simp at hsp
      | some t2' =>
        obtain ⟨pre2, x2, post2⟩ := t2'
        rw [h1, h2] at hsp
        simp only [Option.map_some', Option.some.injEq, Prod.mk.injEq] at hsp
        obtain ⟨hpre, hx, hpost⟩ := hsp
        dsimp only
        simp only [Option.map_some', Option.some.injEq]
        refine normDB_of_parts ?_ hl hr
        have hren := congrArg NFTRecord.renter hx
        have hexp := congrArg NFTRecord.expiresAt hx
        simp only [normNFT] at hren hexp
        dsimp only
        rw [List.map_append, List.map_append, List.map_cons, List.map_cons,
          hpre, hpost]
        simp [normNFT, hren, hexp]

theorem handleListingCancelled_norm (db1 db2 : DB) (n : Nat)
    (h : normDB db1 = normDB db2) :
    Option.map normDB (handleListingCancelled db1 n) =
      Option.map normDB (handleListingCancelled db2 n) := by
  obtain ⟨hn, hl, hr⟩ := normDB_parts h
  rw [handleListingCancelled, handleListingCancelled]
  simp only [Option.map_some', Option.some.injEq]
  refine normDB_of_parts ?_ ?_ hr
  · exact hn
  · exact updateFirstBy_map_eq normListing _
      (fun l => decide (l.onChainListingId = some n)) (fun _ => rfl) _ _
      (fun a1 a2 ha =>
        congrArg (fun r => { r with status := LStatus.cancelled }) ha) hl

theorem handleRented_norm (db1 db2 : DB) (n : Nat) (renter : String)
    (expires : Nat) (total txHash : String) (blockNumber t1 t2 : Nat)
    (h : normDB db1 = normDB db2) :
    Option.map normDB
        (handleRented db1 n renter expires total txHash blockNumber t1) =
      Option.map normDB
        (handleRented db2 n renter expires total txHash blockNumber t2) := by
  obtain ⟨hn, hl, hr⟩ := normDB_parts h
  rw [handleRented.eq_def, handleRented.eq_def]
  have hspl := splitFirst_map_eq normListing
    (fun l => decide (l.onChainListingId = some n))
    (fun l => decide (l.onChainListingId = some n)) (fun _ => rfl) hl
  cases h1 : splitFirst (fun l => decide (l.onChainListingId = some n))
      db1.listings with
  | none =>
    cases h2 : splitFirst (fun l => decide (l.onChainListingId = some n))
        db2.listings with
    | none => simpa using h
    | some t => rw [h1, h2] at hspl; simp at hspl
  | some t1' =>
    obtain ⟨pre1, x1, post1⟩ := t1'
    cases h2 : splitFirst (fun l => decide (l.onChainListingId = some n))
        db2.listings with
    | none => rw [h1, h2] at hspl; simp at hspl
    | some t2' =>
      obtain ⟨pre2, x2, post2⟩ := t2'
      rw [h1, h2] at hspl
      simp only [Option.map_some', Option.some.injEq, Prod.mk.injEq] at hspl
      obtain ⟨hpre, hx, hpost⟩ := hspl
      have hta := congrArg ListingRecord.tokenAddress hx
      have hti := congrArg ListingRecord.tokenId hx
      have hsa := congrArg ListingRecord.sellerAddress hx
      simp only [normListing] at hta hti hsa
      have hrow : normRental
          (rentedRow n renter expires total txHash blockNumber t1 x1) =
          normRental
            (rentedRow n renter expires total txHash blockNumber t2 x2) := by
        simp only [rentedRow, normRental]
        rw [hta, hti, hsa]
      dsimp only
      simp only [Option.map_some', Option.some.injEq]
      refine normDB_of_parts ?_ ?_ ?_
      · rw [← hta, ← hti]
        refine updateFirstBy_map_eq normNFT _
          (fun nf => decide (nf.tokenAddress = lowerStr x1.tokenAddress ∧
            nf.tokenId = x1.tokenId))
          (fun _ => rfl) _ _ ?_ hn
        intro a1 a2 ha
        have h' := congrArg (fun r => { r with
          renter := some (lowerStr renter),
          expiresAt := some (expires * 1000) }) ha
        exact h'
      · rw [List.map_append, List.map_append, List.map_cons, List.map_cons,
          hpre, hpost]
        have h' := congrArg (fun r => { r with status := LStatus.rented }) hx
        have h'' : normListing { x1 with status := LStatus.rented } =
            normListing { x2 with status := LStatus.rented } := h'
        rw [h'']
      · have hspr := splitFirst_map_eq normRental
          (fun r => decide (r.txHash = txHash))
          (fun r => decide (r.txHash = txHash)) (fun _ => rfl) hr
        cases hr1 : splitFirst (fun r => decide (r.txHash = txHash))
            db1.rentals with
        | none =>
          cases hr2 : splitFirst (fun r => decide (r.txHash = txHash))
              db2.rentals with
          | none =>
            dsimp only
            rw [List.map_append, List.map_append, hr]
            simp [hrow]
          | some t => rw [hr1, hr2] at hspr; simp at hspr
        | some tr1 =>
          obtain ⟨rpre1, ry1, rpost1⟩ := tr1
          cases hr2 : splitFirst (fun r => decide (r.txHash = txHash))
              db2.rentals with
          | none => rw [hr1, hr2] at hspr; simp at hspr
          | some tr2 =>
            obtain ⟨rpre2, ry2, rpost2⟩ := tr2
            rw [hr1, hr2] at hspr
            simp only [Option.map_some', Option.some.injEq,
              Prod.mk.injEq] at hspr
            obtain ⟨hrpre, -, hrpost⟩ := hspr
            dsimp only
            rw [List.map_append, List.map_append, List.map_cons,
              List.map_cons, hrpre, hrpost, hrow]

theorem handleListingCreated_norm (db1 db2 : DB) (n : Nat)
    (seller ta ti price : String) (minD maxD : Nat) (mh txHash : String)
    (blockNumber t1 t2 : Nat) (h : normDB db1 = normDB db2) :
    Option.map normDB
        (handleListingCreated db1 n seller ta ti price minD maxD mh txHash
          blockNumber t1) =
      Option.map normDB
        (handleListingCreated db2 n seller ta ti price minD maxD mh txHash
          blockNumber t2) := by
  obtain ⟨hn, hl, hr⟩ := normDB_parts h
  rw [handleListingCreated.eq_def, handleListingCreated.eq_def]
  by_cases hg : ta = "" ∨ seller = "" ∨ ti = ""
  · rw [if_pos hg, if_pos hg]
    simpa using h
  · rw [if_neg hg, if_neg hg]
    have hfind := find?_map_eq normNFT
      (fun nf => decide (nf.tokenAddress = lowerStr ta ∧ nf.tokenId = ti))
      (fun nf => decide (nf.tokenAddress = lowerStr ta ∧ nf.tokenId = ti))
      (fun _ => rfl) hn
    cases hf1 : db1.nfts.find? (fun nf =>
        decide (nf.tokenAddress = lowerStr ta ∧ nf.tokenId = ti)) with
    | none =>
      cases hf2 : db2.nfts.find? (fun nf =>
          decide (nf.tokenAddress = lowerStr ta ∧ nf.tokenId = ti)) with
      | none => simpa using h
      | some nft2 => rw [hf1, hf2] at hfind; simp at hfind
    | some nft1 =>
      cases hf2 : db2.nfts.find? (fun nf =>
          decide (nf.tokenAddress = lowerStr ta ∧ nf.tokenId = ti)) with
      | none => rw [hf1, hf2] at hfind; simp at hfind
      | some nft2 =>
        rw [hf1, hf2] at hfind
        simp only [Option.map_some', Option.some.injEq] at hfind
        have hown := congrArg NFTRecord.owner hfind
        simp only [normNFT] at hown
        dsimp only
        rw [← hown]
        by_cases ho : nft1.owner ≠ lowerStr seller
        · rw [if_pos ho, if_pos ho]
          simpa using h
        · rw [if_neg ho, if_neg ho]
          have hspl := splitFirst_map_eq normListing
            (fun l => decide (l.onChainListingId = some n))
            (fun l => decide (l.onChainListingId = some n)) (fun _ => rfl) hl
          cases h1 : splitFirst (fun l => decide (l.onChainListingId = some n))
              db1.listings with
          | none =>
            cases h2 : splitFirst (fun l =>
                decide (l.onChainListingId = some n)) db2.listings with
            | none =>
              dsimp only
              have hany := any_map_eq normListing
                (activeConflict (lowerStr ta) ti)
                (activeConflict (lowerStr ta) ti) (fun _ => rfl) hl
              have hany2 := any_map_eq normListing idMissing idMissing
                (fun _ => rfl) hl
              rw [← hany, ← hany2]
              by_cases hc : (db1.listings.any (activeConflict (lowerStr ta) ti) ||
                  db1.listings.any idMissing) = true
              · rw [if_pos hc, if_pos hc]
              · rw [if_neg hc, if_neg hc]
                simp only [Option.map_some', Option.some.injEq]
                refine normDB_of_parts hn ?_ hr
                rw [List.map_append, List.map_append, hl]
                simp [normListing]
            | some t => rw [h1, h2] at hspl; simp at hspl
          | some t1' =>
            obtain ⟨pre1, x1, post1⟩ := t1'
            cases h2 : splitFirst (fun l =>
                decide (l.onChainListingId = some n)) db2.listings with
            | none => rw [h1, h2] at hspl; simp at hspl
            | some t2' =>
              obtain ⟨pre2, x2, post2⟩ := t2'
              rw [h1, h2] at hspl
              simp only [Option.map_some', Option.some.injEq,
                Prod.mk.injEq] at hspl
              obtain ⟨hpre, hx, hpost⟩ := hspl
              dsimp only
              have happ : (pre1 ++ post1).map normListing =
                  (pre2 ++ post2).map normListing := by
                rw [List.map_append, List.map_append, hpre, hpost]
              have hany := any_map_eq normListing
                (activeConflict (lowerStr ta) ti)
                (activeConflict (lowerStr ta) ti) (fun _ => rfl) happ
              rw [← hany]
              by_cases hc : (pre1 ++ post1).any (activeConflict (lowerStr ta) ti)
              · rw [if_pos hc, if_pos hc]
              · rw [if_neg hc, if_neg hc]
                simp only [Option.map_some', Option.some.injEq]
                refine normDB_of_parts hn ?_ hr
                rw [List.map_append, List.map_append, List.map_cons,
                  List.map_cons, hpre, hpost]
                have hoc := congrArg ListingRecord.onChainListingId hx
                have hid := congrArg ListingRecord.id hx
                simp only [normListing] at hoc hid
                simp [normListing, hoc, hid]

theorem applyEvent_norm (db1 db2 : DB) (e1 e2 : LedgerEntry) (t1 t2 : Nat)
    (hdb : normDB db1 = normDB db2) (he : normEntry e1 = normEntry e2) :
    Option.map normDB (applyEvent db1 e1 t1) =
      Option.map normDB (applyEvent db2 e2 t2) := by
  have hargs := congrArg LedgerEntry.args he
  have htx := congrArg LedgerEntry.txHash he
  have hbn := congrArg LedgerEntry.blockNumber he
  have hca := congrArg LedgerEntry.contractAddress he
  simp only [normEntry] at hargs htx hbn hca
  rw [applyEvent, applyEvent, ← hargs, ← htx, ← hbn, ← hca]
  cases e1.args with
  | minted tokenId creator tokenURI metadataHash =>
    exact handleNFTMinted_norm db1 db2 tokenId creator metadataHash e1.txHash
      e1.contractAddress e1.blockNumber t1 t2 hdb
  | listingCreated n seller ta ti price minD maxD mh =>
    exact handleListingCreated_norm db1 db2 n seller ta ti price minD maxD mh
      e1.txHash e1.blockNumber t1 t2 hdb
  | rented n renter ta ti expires total =>
    exact handleRented_norm db1 db2 n renter expires total e1.txHash
      e1.blockNumber t1 t2 hdb
  | listingCancelled n ta ti =>
    exact handleListingCancelled_norm db1 db2 n hdb

theorem selStep_norm (acc1 acc2 : Option LedgerEntry) (a b : LedgerEntry)
    (hacc : Option.map normEntry acc1 = Option.map normEntry acc2)
    (hab : normEntry a = normEntry b) :
    Option.map normEntry (selStep acc1 a) =
      Option.map normEntry (selStep acc2 b) := by
  have hst := congrArg LedgerEntry.status hab
  simp only [normEntry] at hst
  rw [selStep.eq_def, selStep.eq_def, ← hst]
  by_cases hp : a.status = EvStatus.pending
  · rw [if_pos hp, if_pos hp]
    cases acc1 with
    | none =>
      cases acc2 with
      | none => simpa using hab
      | some c2 => simp at hacc
    | some c1 =>
      cases acc2 with
      | none => simp at hacc
      | some c2 =>
        simp only [Option.map_some', Option.some.injEq] at hacc
        dsimp only
        have hklt : entryKeyLt a c1 = entryKeyLt b c2 := by
          have h1 := congrArg LedgerEntry.blockNumber hab
          have h2 := congrArg LedgerEntry.logIndex hab
          have h3 := congrArg LedgerEntry.blockNumber hacc
          have h4 := congrArg LedgerEntry.logIndex hacc
          simp only [normEntry] at h1 h2 h3 h4
          rw [entryKeyLt, entryKeyLt, h1, h2, h3, h4]
        rw [← hklt]
        by_cases hk : entryKeyLt a c1 = true
        · rw [if_pos hk, if_pos hk]
          simpa using hab
        · rw [if_neg hk, if_neg hk]
          simpa using hacc
  · rw [if_neg hp, if_neg hp]
    exact hacc

theorem foldl_selStep_norm :
    ∀ (l1 l2 : List LedgerEntry) (acc1 acc2 : Option LedgerEntry),
      l1.map normEntry = l2.map normEntry →
      Option.map normEntry acc1 = Option.map normEntry acc2 →
      Option.map normEntry (l1.foldl selStep acc1) =
        Option.map normEntry (l2.foldl selStep acc2) := by
  intro l1
  induction l1 with
  | nil =>
    intro l2 acc1 acc2 h hacc
    cases l2 with
    | nil => simpa using hacc
    | cons b m => simp at h
  | cons a l ih =>
    intro l2 acc1 acc2 h hacc
    cases l2 with
    | nil => simp at h
    | cons b m =>
      simp only [List.map_cons, List.cons.injEq] at h
      obtain ⟨hab, hlm⟩ := h
      simp only [List.foldl_cons]
      exact ih m _ _ hlm (selStep_norm acc1 acc2 a b hacc hab)

theorem selectPending_norm (evs1 evs2 : List LedgerEntry)
    (h : evs1.map normEntry = evs2.map normEntry) :
    Option.map normEntry (selectPending evs1) =
      Option.map normEntry (selectPending evs2) :=
  foldl_selStep_norm evs1 evs2 none none h rfl

theorem markEntry_norm (tx : String) (li : Nat)
    (u1 u2 : LedgerEntry → LedgerEntry)
    (hu : ∀ a b, normEntry a = normEntry b →
      normEntry (u1 a) = normEntry (u2 b))
    {evs1 evs2 : List LedgerEntry}
    (h : evs1.map normEntry = evs2.map normEntry) :
    (markEntry evs1 tx li u1).map normEntry =
      (markEntry evs2 tx li u2).map normEntry := by
  induction evs1 generalizing evs2 with
  | nil =>
    cases evs2 with
    | nil => rfl
    | cons b m => simp at h
  | cons a l ih =>
    cases evs2 with
    | nil => simp at h
    | cons b m =>
      simp only [List.map_cons, List.cons.injEq] at h
      obtain ⟨hab, hlm⟩ := h
      have htx := congrArg LedgerEntry.txHash hab
      have hli := congrArg LedgerEntry.logIndex hab
      simp only [normEntry] at htx hli
      simp only [markEntry, List.map_cons]
      refine congrArg₂ List.cons ?_ ?_
      · by_cases hk : a.txHash = tx ∧ a.logIndex = li
        · rw [if_pos hk,
            if_pos (show b.txHash = tx ∧ b.logIndex = li from
              ⟨htx.symm.trans hk.1, hli.symm.trans hk.2⟩)]
          exact hu a b hab
        · rw [if_neg hk,
            if_neg (show ¬(b.txHash = tx ∧ b.logIndex = li) from
              fun hb => hk ⟨htx.trans hb.1, hli.trans hb.2⟩)]
          exact hab
      · exact ih hlm

theorem processNextPending_norm (db1 db2 : DB)
    (evs1 evs2 : List LedgerEntry) (t1 t2 : Nat) (crash : Bool)
    (hdb : normDB db1 = normDB db2)
    (hev : evs1.map normEntry = evs2.map normEntry) :
    normDB (processNextPending db1 evs1 t1 crash).1 =
      normDB (processNextPending db2 evs2 t2 crash).1 ∧
    (processNextPending db1 evs1 t1 crash).2.map normEntry =
      (processNextPending db2 evs2 t2 crash).2.map normEntry := by
  have hsel := selectPending_norm evs1 evs2 hev
  cases hs1 : selectPending evs1 with
  | none =>
    cases hs2 : selectPending evs2 with
    | none =>
      have r1 : processNextPending db1 evs1 t1 crash = (db1, evs1) := by
        rw [processNextPending, hs1]
      have r2 : processNextPending db2 evs2 t2 crash = (db2, evs2) := by
        rw [processNextPending, hs2]
      rw [r1, r2]
      exact ⟨hdb, hev⟩
    | some e2 => rw [hs1, hs2] at hsel; simp at hsel
  | some e1 =>
    cases hs2 : selectPending evs2 with
    | none => rw [hs1, hs2] at hsel; simp at hsel
    | some e2 =>
      rw [hs1, hs2] at hsel
      simp only [Option.map_some', Option.some.injEq] at hsel
      have htx := congrArg LedgerEntry.txHash hsel
      have hli := congrArg LedgerEntry.logIndex hsel
      simp only [normEntry] at htx hli
      have hfail : (markEntry evs1 e1.txHash e1.logIndex (fun x =>
          { x with retries := x.retries + 1,
                   status := if x.retries + 1 ≥ 5 then EvStatus.failed
                             else x.status,
                   updatedAt := t1 })).map normEntry =
          (markEntry evs2 e2.txHash e2.logIndex (fun x =>
          { x with retries := x.retries + 1,
                   status := if x.retries + 1 ≥ 5 then EvStatus.failed
                             else x.status,
                   updatedAt := t2 })).map normEntry := by
        rw [← htx, ← hli]
        refine markEntry_norm _ _ _ _ ?_ hev
        intro a b hab
        have h1 := congrArg LedgerEntry.txHash hab
        have h2 := congrArg LedgerEntry.logIndex hab
        have h3 := congrArg LedgerEntry.blockNumber hab
        have h4 := congrArg LedgerEntry.contractAddress hab
        have h5 := congrArg LedgerEntry.args hab
        have h6 := congrArg LedgerEntry.status hab
        have h7 := congrArg LedgerEntry.retries hab
        simp only [normEntry] at h1 h2 h3 h4 h5 h6 h7
        simp [normEntry, h1, h2, h3, h4, h5, h6, h7]
      have hproc : (markEntry evs1 e1.txHash e1.logIndex (fun x =>
          { x with status := EvStatus.processed,
                   updatedAt := t1 })).map normEntry =
          (markEntry evs2 e2.txHash e2.logIndex (fun x =>
          { x with status := EvStatus.processed,
                   updatedAt := t2 })).map normEntry := by
        rw [← htx, ← hli]
        refine markEntry_norm _ _ _ _ ?_ hev
        intro a b hab
        have h1 := congrArg LedgerEntry.txHash hab
        have h2 := congrArg LedgerEntry.logIndex hab
        have h3 := congrArg LedgerEntry.blockNumber hab
        have h4 := congrArg LedgerEntry.contractAddress hab
        have h5 := congrArg LedgerEntry.args hab
        have h7 := congrArg LedgerEntry.retries hab
        simp only [normEntry] at h1 h2 h3 h4 h5 h7
        simp [normEntry, h1, h2, h3, h4, h5, h7]
      cases crash with
      | true =>
        have r1 : processNextPending db1 evs1 t1 true =
            (db1, markEntry evs1 e1.txHash e1.logIndex (fun x =>
              { x with retries := x.retries + 1,
                       status := if x.retries + 1 ≥ 5 then EvStatus.failed
                                 else x.status,
                       updatedAt := t1 })) := by
          rw [processNextPending, hs1]
          rfl
        have r2 : processNextPending db2 evs2 t2 true =
            (db2, markEntry evs2 e2.txHash e2.logIndex (fun x =>
              { x with retries := x.retries + 1,
                       status := if x.retries + 1 ≥ 5 then EvStatus.failed
                                 else x.status,
                       updatedAt := t2 })) := by
          rw [processNextPending, hs2]
          rfl
        rw [r1, r2]
        exact ⟨hdb, hfail⟩
      | false =>
        have happ := applyEvent_norm db1 db2 e1 e2 t1 t2 hdb hsel
        cases ha1 : applyEvent db1 e1 t1 with
        | none =>
          cases ha2 : applyEvent db2 e2 t2 with
          | none =>
            have r1 : processNextPending db1 evs1 t1 false =
                (db1, markEntry evs1 e1.txHash e1.logIndex (fun x =>
                  { x with retries := x.retries + 1,
                           status := if x.retries + 1 ≥ 5 then EvStatus.failed
                                     else x.status,
                           updatedAt := t1 })) := by
              rw [processNextPending, hs1]
              simp [ha1]
            have r2 : processNextPending db2 evs2 t2 false =
                (db2, markEntry evs2 e2.txHash e2.logIndex (fun x =>
                  { x with retries := x.retries + 1,
                           status := if x.retries + 1 ≥ 5 then EvStatus.failed
                                     else x.status,
                           updatedAt := t2 })) := by
              rw [processNextPending, hs2]
              simp [ha2]
            rw [r1, r2]
            exact ⟨hdb, hfail⟩
          | some d2 => rw [ha1, ha2] at happ; simp at happ
        | some d1 =>
          cases ha2 : applyEvent db2 e2 t2 with
          | none => rw [ha1, ha2] at happ; simp at happ
          | some d2 =>
            rw [ha1, ha2] at happ
            simp only [Option.map_some', Option.some.injEq] at happ
            have r1 : processNextPending db1 evs1 t1 false =
                (d1, markEntry evs1 e1.txHash e1.logIndex (fun x =>
                  { x with status := EvStatus.processed,
                           updatedAt := t1 })) := by
              rw [processNextPending, hs1]
              simp [ha1]
            have r2 : processNextPending db2 evs2 t2 false =
                (d2, markEntry evs2 e2.txHash e2.logIndex (fun x =>
                  { x with status := EvStatus.processed,
                           updatedAt := t2 })) := by
              rw [processNextPending, hs2]
              simp [ha2]
            rw [r1, r2]
            exact ⟨happ, hproc⟩

theorem runProjector_norm (fuel : Nat) :
    ∀ (step1 step2 : Nat) (db1 db2 : DB) (evs1 evs2 : List LedgerEntry)
      (clock1 clock2 : Nat → Nat),
      normDB db1 = normDB db2 →
      evs1.map normEntry = evs2.map normEntry →
      normDB (runProjector db1 evs1 clock1 step1 fuel).1 =
        normDB (runProjector db2 evs2 clock2 step2 fuel).1 ∧
      (runProjector db1 evs1 clock1 step1 fuel).2.map normEntry =
        (runProjector db2 evs2 clock2 step2 fuel).2.map normEntry := by
  induction fuel with
  | zero => intro _ _ _ _ _ _ _ _ hdb hev; exact ⟨hdb, hev⟩
  | succ fuel ih =>
    intro step1 step2 db1 db2 evs1 evs2 clock1 clock2 hdb hev
    rw [runProjector, runProjector]
    obtain ⟨hdb', hev'⟩ := processNextPending_norm db1 db2 evs1 evs2
      (clock1 step1) (clock2 step2) false hdb hev
    exact ih (step1 + 1) (step2 + 1) _ _ _ _ clock1 clock2 hdb' hev'

/-! ## The replay-invariant entry core survives processing and rebuild -/

theorem rebuildEvents_norm (evs : List LedgerEntry) :
    (rebuildEvents evs).map normEntry = evs.map resetCore := by
  rw [rebuildEvents, List.map_map]
  rfl

theorem markEntry_resetCore (evs : List LedgerEntry) (tx : String) (li : Nat)
    (u : LedgerEntry → LedgerEntry)
    (hu : ∀ e, resetCore (u e) = resetCore e) :
    (markEntry evs tx li u).map resetCore = evs.map resetCore := by
  rw [markEntry, List.map_map]
  apply List.map_congr_left
  intro e _
  by_cases hk : e.txHash = tx ∧ e.logIndex = li
  · simp only [Function.comp_apply, if_pos hk]
    exact hu e
  · simp only [Function.comp_apply, if_neg hk]

theorem processNextPending_resetCore (db : DB) (evs : List LedgerEntry)
    (now : Nat) (crash : Bool) :
    ((processNextPending db evs now crash).2).map resetCore =
      evs.map resetCore := by
  cases hsel : selectPending evs with
  | none =>
    have r : processNextPending db evs now crash = (db, evs) := by
      rw [processNextPending, hsel]
    rw [r]
  | some e =>
    have hfail := markEntry_resetCore evs e.txHash e.logIndex
      (fun x =>
        { x with retries := x.retries + 1,
                 status := if x.retries + 1 ≥ 5 then EvStatus.failed
                           else x.status,
                 updatedAt := now }) (fun _ => rfl)
    have hproc := markEntry_resetCore evs e.txHash e.logIndex
      (fun x => { x with status := EvStatus.processed, updatedAt := now })
      (fun _ => rfl)
    cases crash with
    | true =>
      have r : processNextPending db evs now true =
          (db, markEntry evs e.txHash e.logIndex (fun x =>
            { x with retries := x.retries + 1,
                     status := if x.retries + 1 ≥ 5 then EvStatus.failed
                               else x.status,
                     updatedAt := now })) := by
        rw [processNextPending, hsel]
        rfl
      rw [r]
      exact hfail
    | false =>
      cases happ : applyEvent db e now with
      | none =>
        have r : processNextPending db evs now false =
            (db, markEntry evs e.txHash e.logIndex (fun x =>
              { x with retries := x.retries + 1,
                       status := if x.retries + 1 ≥ 5 then EvStatus.failed
                                 else x.status,
                       updatedAt := now })) := by
          rw [processNextPending, hsel]
          simp [happ]
        rw [r]
        exact hfail
      | some db' =>
        have r : processNextPending db evs now false =
            (db', markEntry evs e.txHash e.logIndex (fun x =>
              { x with status := EvStatus.processed, updatedAt := now })) := by
          rw [processNextPending, hsel]
          simp [happ]
        rw [r]
        exact hproc

theorem runProjector_resetCore (fuel : Nat) :
    ∀ (step : Nat) (db : DB) (evs : List LedgerEntry) (clock : Nat → Nat),
      ((runProjector db evs clock step fuel).2).map resetCore =
        evs.map resetCore := by
  induction fuel with
  | zero => intro _ _ _ _; rfl
  | succ fuel ih =>
    intro step db evs clock
    rw [runProjector]
    rw [ih (step + 1) _ _ clock]
    exact processNextPending_resetCore db evs (clock step) false

/-! ## The projector never touches locally-originated listings -/

theorem splitFirst_append_of_none (p : α → Bool) (l1 l2 : List α)
    (h : ∀ x ∈ l1, p x = false) :
    splitFirst p (l1 ++ l2) =
      Option.map (fun t => (l1 ++ t.1, t.2.1, t.2.2)) (splitFirst p l2) := by
  induction l1 with
  | nil =>
    rw [List.nil_append]
    cases hs : splitFirst p l2 with
    | none => rfl
    | some t => simp
  | cons a m ih =>
    have ha : p a = false := h a (List.mem_cons_self _ _)
    rw [List.cons_append, splitFirst, if_neg (by simp [ha])]
    rw [ih (fun x hx => h x (List.mem_cons_of_mem _ hx))]
    cases splitFirst p l2 with
    | none => rfl
    | some t => rfl

theorem applyEvent_draftsPrefix (ds : List ListingRecord) (db db' : DB)
    (e : LedgerEntry) (now : Nat)
    (hds : ∀ l ∈ ds, l.onChainListingId = none)
    (h : applyEvent db e now = some db') (hp : DraftsPrefix ds db) :
    DraftsPrefix ds db' := by
  obtain ⟨ts, hdec, hts⟩ := hp
  rw [applyEvent] at h
  cases harg : e.args with
  | minted tokenId creator tokenURI metadataHash =>
    rw [harg] at h
    dsimp only at h
    rw [handleNFTMinted.eq_def] at h
    by_cases hg : creator = "" ∨ e.contractAddress = ""
    · rw [if_pos hg] at h
      cases Option.some.inj h
      exact ⟨ts, hdec, hts⟩
    · rw [if_neg hg] at h
      cases hsp : splitFirst (fun nf =>
          decide (nf.tokenAddress = lowerStr e.contractAddress ∧
            nf.tokenId = tokenId)) db.nfts with
      | none =>
        rw [hsp] at h
        cases Option.some.inj h
        exact ⟨ts, hdec, hts⟩
      | some t =>
        obtain ⟨pre, x, post⟩ := t
        rw [hsp] at h
        cases Option.some.inj h
        exact ⟨ts, hdec, hts⟩
  | listingCancelled n ta ti =>
    rw [harg] at h
    dsimp only at h
    rw [handleListingCancelled.eq_def] at h
    dsimp only at h
    cases Option.some.inj h
    rw [updateFirstBy, hdec]
    rw [splitFirst_append_of_none _ ds ts (fun l hl => by simp [hds l hl])]
    cases hsp : splitFirst (fun l => decide (l.onChainListingId = some n)) ts with
    | none => exact ⟨ts, rfl, hts⟩
    | some t =>
      obtain ⟨pre, x, post⟩ := t
      obtain ⟨hd2, hpx, -⟩ := splitFirst_eq_some _ hsp
      simp only [Option.map_some']
      refine ⟨pre ++ { x with status := LStatus.cancelled } :: post,
        by rw [List.append_assoc], ?_⟩
      intro l hl
      rcases List.mem_append.mp hl with hl | hl
      · exact hts l (by rw [hd2]; exact List.mem_append.mpr (Or.inl hl))
      · rcases List.mem_cons.mp hl with hl | hl
        · subst hl
          constructor
          · have hx2 : x ∈ ts := by
              rw [hd2]
              exact List.mem_append.mpr (Or.inr (List.mem_cons_self _ _))
            simpa using (hts x hx2).1
          · simp [confirmedStatus]
        · refine hts l ?_
          rw [hd2]
          exact List.mem_append.mpr (Or.inr (List.mem_cons_of_mem _ hl))
  | rented n renter ta ti expires total =>
    rw [harg] at h
    dsimp only at h
    rw [handleRented.eq_def] at h
    rw [hdec] at h
    rw [splitFirst_append_of_none _ ds ts (fun l hl => by simp [hds l hl])] at h
    cases hsp : splitFirst (fun l => decide (l.onChainListingId = some n)) ts with
    | none =>
      rw [hsp] at h
      cases Option.some.inj h
      exact ⟨ts, hdec, hts⟩
    | some t =>
      obtain ⟨pre, x, post⟩ := t
      obtain ⟨hd2, hpx, -⟩ := splitFirst_eq_some _ hsp
      rw [hsp] at h
      simp only [Option.map_some'] at h
      cases Option.some.inj h
      refine ⟨pre ++ { x with status := LStatus.rented } :: post,
        by dsimp only; rw [List.append_assoc], ?_⟩
      intro l hl
      rcases List.mem_append.mp hl with hl | hl
      · exact hts l (by rw [hd2]; exact List.mem_append.mpr (Or.inl hl))
      · rcases List.mem_cons.mp hl with hl | hl
        · subst hl
          constructor
          · have hx2 : x ∈ ts := by
              rw [hd2]
              exact List.mem_append.mpr (Or.inr (List.mem_cons_self _ _))
            simpa using (hts x hx2).1
          · simp [confirmedStatus]
        · refine hts l ?_
          rw [hd2]
          exact List.mem_append.mpr (Or.inr (List.mem_cons_of_mem _ hl))
  | listingCreated n seller ta ti price minD maxD mh =>
    rw [harg] at h
    dsimp only at h
    rw [handleListingCreated.eq_def] at h
    by_cases hg : ta = "" ∨ seller = "" ∨ ti = ""
    · rw [if_pos hg] at h
      cases Option.some.inj h
      exact ⟨ts, hdec, hts⟩
    · rw [if_neg hg] at h
      cases hfind : db.nfts.find? (fun nf =>
          decide (nf.tokenAddress = lowerStr ta ∧ nf.tokenId = ti)) with
      | none =>
        rw [hfind] at h
        cases Option.some.inj h
        exact ⟨ts, hdec, hts⟩
      | some nft =>
        rw [hfind] at h
        dsimp only at h
        by_cases hown : nft.owner ≠ lowerStr seller
        · rw [if_pos hown] at h
          cases Option.some.inj h
          exact ⟨ts, hdec, hts⟩
        · rw [if_neg hown] at h
          rw [hdec] at h
          rw [splitFirst_append_of_none _ ds ts
            (fun l hl => by simp [hds l hl])] at h
          cases hsp : splitFirst (fun l =>
              decide (l.onChainListingId = some n)) ts with
          | none =>
            rw [hsp] at h
            simp only [Option.map_none'] at h
            cases hconf : ((ds ++ ts).any (activeConflict (lowerStr ta) ti) ||
                (ds ++ ts).any idMissing) with
            | true => rw [hconf] at h; cases h
            | false =>
              rw [hconf] at h
              rw [if_neg (by simp)] at h
              cases Option.some.inj h
              refine ⟨ts ++ [_], by dsimp only; rw [List.append_assoc], ?_⟩
              intro l hl
              rcases List.mem_append.mp hl with hl | hl
              · exact hts l hl
              · rcases List.mem_singleton.mp hl with rfl
                exact ⟨by simp, by simp [confirmedStatus]⟩
          | some t =>
            obtain ⟨pre, x, post⟩ := t
            obtain ⟨hd2, hpx, -⟩ := splitFirst_eq_some _ hsp
            rw [hsp] at h
            simp only [Option.map_some'] at h
            cases hconf : ((ds ++ pre) ++ post).any
                (activeConflict (lowerStr ta) ti) with
            | true => rw [hconf] at h; cases h
            | false =>
              rw [hconf] at h
              rw [if_neg (by simp)] at h
              cases Option.some.inj h
              refine ⟨pre ++ _ :: post,
                by dsimp only; rw [List.append_assoc], ?_⟩
              intro l hl
              rcases List.mem_append.mp hl with hl | hl
              · exact hts l (by rw [hd2]; exact List.mem_append.mpr (Or.inl hl))
              · rcases List.mem_cons.mp hl with hl | hl
                · subst hl
                  refine ⟨?_, by simp [confirmedStatus]⟩
                  have hx2 : x ∈ ts := by
                    rw [hd2]
                    exact List.mem_append.mpr
                      (Or.inr (List.mem_cons_self _ _))
                  simpa using (hts x hx2).1
                · refine hts l ?_
                  rw [hd2]
                  exact List.mem_append.mpr
                    (Or.inr (List.mem_cons_of_mem _ hl))

theorem rebuildEvents_resetCore (evs : List LedgerEntry) :
    (rebuildEvents evs).map resetCore = evs.map resetCore := by
  rw [rebuildEvents, List.map_map]
  rfl

theorem processNextPending_draftsPrefix (ds : List ListingRecord) (db : DB)
    (evs : List LedgerEntry) (now : Nat) (crash : Bool)
    (hds : ∀ l ∈ ds, l.onChainListingId = none)
    (hp : DraftsPrefix ds db) :
    DraftsPrefix ds (processNextPending db evs now crash).1 := by
  cases hsel : selectPending evs with
  | none =>
    have r : processNextPending db evs now crash = (db, evs) := by
      rw [processNextPending, hsel]
    rw [r]
    exact hp
  | some e =>
    cases crash with
    | true =>
      have r : (processNextPending db evs now true).1 = db := by
        rw [processNextPending, hsel]
        rfl
      rw [r]
      exact hp
    | false =>
      cases happ : applyEvent db e now with
      | none =>
        have r : (processNextPending db evs now false).1 = db := by
          rw [processNextPending, hsel]
          simp [happ]
        rw [r]
        exact hp
      | some db' =>
        have r : (processNextPending db evs now false).1 = db' := by
          rw [processNextPending, hsel]
          simp [happ]
        rw [r]
        exact applyEvent_draftsPrefix ds db db' e now hds happ hp

theorem runProjector_draftsPrefix (ds : List ListingRecord) (fuel : Nat) :
    ∀ (step : Nat) (db : DB) (evs : List LedgerEntry) (clock : Nat → Nat),
      (∀ l ∈ ds, l.onChainListingId = none) →
      DraftsPrefix ds db →
      DraftsPrefix ds (runProjector db evs clock step fuel).1 := by
  induction fuel with
  | zero => intro _ _ _ _ _ hp; exact hp
  | succ fuel ih =>
    intro step db evs clock hds hp
    rw [runProjector]
    exact ih (step + 1) _ _ clock hds
      (processNextPending_draftsPrefix ds db evs (clock step) false hds hp)

theorem rebuildDB_listings_of_prefix (ds : List ListingRecord) (db : DB)
    (hconf : ∀ l ∈ ds, confirmedStatus l.status = false)
    (hp : DraftsPrefix ds db) :
    (rebuildDB db).listings = ds := by
  obtain ⟨ts, hdec, hts⟩ := hp
  rw [rebuildDB]
  dsimp only
  rw [hdec, List.filter_append]
  have h1 : ds.filter (fun l => !confirmedStatus l.status) = ds := by
    rw [List.filter_eq_self]
    intro l hl
    simp [hconf l hl]
  have h2 : ts.filter (fun l => !confirmedStatus l.status) = [] := by
    rw [List.filter_eq_nil_iff]
    intro l hl
    simp [(hts l hl).2]
  rw [h1, h2, List.append_nil]

/-! ## C2 — replay determinism -/

/-- Counterexample to C2 as stated: replaying the single mint entry after a
rebuild, with the wall clock one tick later, produces an `AssetRecord` row
whose `updatedAt` field differs from the first run's — the derived rows are
not byte-identical. -/
theorem c2_byte_identical_counterexample :
    ((runProjector (rebuildDB ⟨[], [], [], 0⟩) (rebuildEvents [exMintEntry])
        (fun _ => 0) 0 1).1.nfts.map NFTRecord.updatedAt = [0]) ∧
    ((runProjector
        (rebuildDB (runProjector (rebuildDB ⟨[], [], [], 0⟩)
          (rebuildEvents [exMintEntry]) (fun _ => 0) 0 1).1)
        (rebuildEvents (runProjector (rebuildDB ⟨[], [], [], 0⟩)
          (rebuildEvents [exMintEntry]) (fun _ => 0) 0 1).2)
        (fun _ => 1) 0 1).1.nfts.map NFTRecord.updatedAt = [1]) ∧
    (runProjector
        (rebuildDB (runProjector (rebuildDB ⟨[], [], [], 0⟩)
          (rebuildEvents [exMintEntry]) (fun _ => 0) 0 1).1)
        (rebuildEvents (runProjector (rebuildDB ⟨[], [], [], 0⟩)
          (rebuildEvents [exMintEntry]) (fun _ => 0) 0 1).2)
        (fun _ => 1) 0 1).1 ≠
      (runProjector (rebuildDB ⟨[], [], [], 0⟩) (rebuildEvents [exMintEntry])
        (fun _ => 0) 0 1).1 := by decide

/-- C2 (amended): replaying the same entry sequence twice through the
sequential worker (the second time after the Rebuild tool) yields derived
records that are identical in every ledger-derived field — everything except
the wall-clock timestamp fields (`updatedAt`, `confirmedAt`) and the
database-internal ids (`_id` and the rental's `listingId` reference), which
the counterexample shows may differ.  The hypothesis states that
locally-originated listings (those in pre-confirmation statuses) carry no
ledger-assigned id, which is how the excluded API layer creates them. -/
theorem c2_replay_deterministic_mod_clock (db0 : DB)
    (evs0 : List LedgerEntry) (clock1 clock2 : Nat → Nat) (fuel : Nat)
    (hdraft : ∀ l ∈ db0.listings, confirmedStatus l.status = false →
      l.onChainListingId = none) :
    normDB (runProjector
        (rebuildDB (runProjector (rebuildDB db0) (rebuildEvents evs0)
          clock1 0 fuel).1)
        (rebuildEvents (runProjector (rebuildDB db0) (rebuildEvents evs0)
          clock1 0 fuel).2)
        clock2 0 fuel).1 =
      normDB (runProjector (rebuildDB db0) (rebuildEvents evs0)
        clock1 0 fuel).1 := by
  have hds_none : ∀ l ∈ db0.listings.filter
      (fun l => !confirmedStatus l.status), l.onChainListingId = none := by
    intro l hl
    have hm := List.mem_filter.mp hl
    refine hdraft l hm.1 ?_
    simpa using hm.2
  have hds_conf : ∀ l ∈ db0.listings.filter
      (fun l => !confirmedStatus l.status), confirmedStatus l.status = false := by
    intro l hl
    have hm := List.mem_filter.mp hl
    simpa using hm.2
  have hstart : DraftsPrefix
      (db0.listings.filter (fun l => !confirmedStatus l.status))
      (rebuildDB db0) :=
    ⟨[], (List.append_nil _).symm, fun l hl => absurd hl (List.not_mem_nil l)⟩
  have hpresA := runProjector_draftsPrefix
    (db0.listings.filter (fun l => !confirmedStatus l.status)) fuel 0
    (rebuildDB db0) (rebuildEvents evs0) clock1 hds_none hstart
  have hlistA := rebuildDB_listings_of_prefix
    (db0.listings.filter (fun l => !confirmedStatus l.status))
    (runProjector (rebuildDB db0) (rebuildEvents evs0) clock1 0 fuel).1
    hds_conf hpresA
  have hdbeq : normDB (rebuildDB (runProjector (rebuildDB db0)
      (rebuildEvents evs0) clock1 0 fuel).1) = normDB (rebuildDB db0) := by
    refine normDB_of_parts rfl ?_ rfl
    rw [hlistA]
    rfl
  have heveq : (rebuildEvents (runProjector (rebuildDB db0)
        (rebuildEvents evs0) clock1 0 fuel).2).map normEntry =
      (rebuildEvents evs0).map normEntry := by
    rw [rebuildEvents_norm, rebuildEvents_norm]
    rw [runProjector_resetCore fuel 0 (rebuildDB db0) (rebuildEvents evs0)
      clock1]
    exact rebuildEvents_resetCore evs0
  exact (runProjector_norm fuel 0 0 _ _ _ _ clock2 clock1 hdbeq heveq).1

/-- Witness for C2 on the concrete one-mint ledger and two distinct
clocks. -/
theorem c2_replay_deterministic_mod_clock_witness :
    normDB (runProjector
        (rebuildDB (runProjector (rebuildDB exDB1) (rebuildEvents [exMintEntry])
          (fun _ => 0) 0 1).1)
        (rebuildEvents (runProjector (rebuildDB exDB1)
          (rebuildEvents [exMintEntry]) (fun _ => 0) 0 1).2)
        (fun _ => 1) 0 1).1 =
      normDB (runProjector (rebuildDB exDB1) (rebuildEvents [exMintEntry])
        (fun _ => 0) 0 1).1 :=
  c2_replay_deterministic_mod_clock exDB1 [exMintEntry] (fun _ => 0)
    (fun _ => 1) 1 (by decide)

end NftPipeline
